import Mathlib

set_option maxHeartbeats 1000000

/-!
Verification of the snarkVM transition input storage layer
(`vm/compiler/src/ledger/store/transition/input.rs`).

The layer keeps eight cross-referencing indices for the inputs consumed by a
ledger state transition: `id_map` (transition ID to the ordered input-ID
list), `reverse_id_map` (input ID to transition ID), five variant value maps
(`constant`, `public`, `private`, `record`, `external_record`) and the
`record_tag_map` (tag to serial number).

The ordered-map primitive (the `Map` trait / `MemoryMap`), the `Input` data
type and the `atomic_write_batch!` macro are used by the excerpt but are not
part of it; they are modelled from the specification (sections 3, 4.1 and 7):
writes performed while an atomic batch is in progress are staged in a per-map
buffer that is invisible to readers, `abort_atomic` discards the buffer, and
`finish_atomic` applies it stage-then-swap (on failure the individual map is
left unchanged).  Keys (field elements, transition IDs) are opaque
fixed-width identifiers and are modelled as `Nat`; so are the opaque
payloads (plaintexts, ciphertexts, origins).
-/

/-- Association-list lookup: the value bound to key `k`, if any. -/
def lookupA {V : Type} : List (Nat × V) → Nat → Option V
  | [], _ => none
  | p :: l, k => if p.1 = k then some p.2 else lookupA l k

/-- Association-list insert: drops every binding of `k` and appends `(k, v)`,
the single-binding overwrite semantics of the ordered-map primitive. -/
def insertA {V : Type} : List (Nat × V) → Nat → V → List (Nat × V)
  | [], k, v => [(k, v)]
  | p :: l, k, v => if p.1 = k then insertA l k v else p :: insertA l k v

/-- Association-list removal of every binding of `k`. -/
def removeA {V : Type} : List (Nat × V) → Nat → List (Nat × V)
  | [], _ => []
  | p :: l, k => if p.1 = k then removeA l k else p :: removeA l k

theorem lookupA_insertA_self {V : Type} (l : List (Nat × V)) (k : Nat) (v : V) :
    lookupA (insertA l k v) k = some v := by
  induction l with
  | nil => simp [insertA, lookupA]
  | cons p l ih =>
    by_cases h : p.1 = k <;> simp [insertA, lookupA, h, ih]

theorem lookupA_insertA_ne {V : Type} (l : List (Nat × V)) (k k' : Nat) (v : V)
    (h : k ≠ k') : lookupA (insertA l k v) k' = lookupA l k' := by
  induction l with
  | nil => simp [insertA, lookupA, h]
  | cons p l ih =>
    by_cases hp : p.1 = k
    · simp [insertA, lookupA, hp, ih, h]
    · simp only [insertA, hp, if_false, lookupA]
      by_cases hk : p.1 = k' <;> simp [hk, ih]

theorem lookupA_removeA_self {V : Type} (l : List (Nat × V)) (k : Nat) :
    lookupA (removeA l k) k = none := by
  induction l with
  | nil => simp [removeA, lookupA]
  | cons p l ih =>
    by_cases h : p.1 = k <;> simp [removeA, lookupA, h, ih]

theorem lookupA_removeA_ne {V : Type} (l : List (Nat × V)) (k k' : Nat)
    (h : k ≠ k') : lookupA (removeA l k) k' = lookupA l k' := by
  induction l with
  | nil => simp [removeA, lookupA]
  | cons p l ih =>
    by_cases hp : p.1 = k
    · simp [removeA, lookupA, hp, ih, h]
    · simp only [removeA, hp, if_false, lookupA]
      by_cases hk : p.1 = k' <;> simp [hk, ih]

/-- A staged write operation of the ordered-map primitive. -/
inductive BatchOp (V : Type) where
  | ins (k : Nat) (v : V)
  | del (k : Nat)
  deriving DecidableEq

/-- The key a staged operation touches. -/
def BatchOp.key {V : Type} : BatchOp V → Nat
  | .ins k _ => k
  | .del k => k

/-- Applying one staged operation to a committed association list. -/
def applyOp {V : Type} (l : List (Nat × V)) : BatchOp V → List (Nat × V)
  | .ins k v => insertA l k v
  | .del k => removeA l k

/-- Applying a whole staged buffer, in order. -/
def applyOps {V : Type} (l : List (Nat × V)) (ops : List (BatchOp V)) : List (Nat × V) :=
  ops.foldl applyOp l

/-- Modelled from the spec: the ordered-map primitive with the atomic-batch
protocol (spec section 4.1; the `Map` trait and `MemoryMap` are not part of
the excerpt).  `committed` is what readers see; `batch = some ops` means an
atomic batch is in progress with the staged operations `ops`. -/
@[ext]
structure AMap (V : Type) where
  committed : List (Nat × V)
  batch : Option (List (BatchOp V))
  deriving DecidableEq

/-- Reads see only the committed state; staged writes are invisible. -/
def AMap.get {V : Type} (m : AMap V) (k : Nat) : Option V :=
  lookupA m.committed k

/-- Key-existence check against the committed state. -/
def AMap.contains_key {V : Type} (m : AMap V) (k : Nat) : Bool :=
  (m.get k).isSome

/-- Starting an atomic batch; nested starts do not create nesting levels. -/
def AMap.start_atomic {V : Type} (m : AMap V) : AMap V :=
  match m.batch with
  | some _ => m
  | none => { m with batch := some [] }

/-- Whether an atomic batch is in progress on this map. -/
def AMap.is_atomic_in_progress {V : Type} (m : AMap V) : Bool :=
  m.batch.isSome

/-- Aborting discards every staged write. -/
def AMap.abort_atomic {V : Type} (m : AMap V) : AMap V :=
  { m with batch := none }

/-- A write: staged while a batch is in progress, applied directly otherwise. -/
def AMap.insert {V : Type} (m : AMap V) (k : Nat) (v : V) : AMap V :=
  match m.batch with
  | some ops => { m with batch := some (ops ++ [.ins k v]) }
  | none => { m with committed := insertA m.committed k v }

/-- A removal: staged while a batch is in progress, applied directly otherwise. -/
def AMap.remove {V : Type} (m : AMap V) (k : Nat) : AMap V :=
  match m.batch with
  | some ops => { m with batch := some (ops ++ [.del k]) }
  | none => { m with committed := removeA m.committed k }

/-- Committing stage-then-swap: with `ok = true` the staged buffer is applied
as a unit; with `ok = false` (an induced commit failure) the map is left
unchanged.  Finishing while idle is a no-op. -/
def AMap.finish_atomic {V : Type} (ok : Bool) (m : AMap V) : Except Unit (AMap V) :=
  match m.batch with
  | none => .ok m
  | some ops => if ok then .ok ⟨applyOps m.committed ops, none⟩ else .error ()

/-- Modelled from the spec: the transition input tagged union (spec section 3;
the `Input` type lives outside the excerpt).  Payloads are opaque to this
layer and modelled as `Nat`; the `Option` payloads of the constant, public
and private variants model prunable content. -/
inductive Input where
  | constant (id : Nat) (plaintext : Option Nat)
  | public (id : Nat) (plaintext : Option Nat)
  | priv (id : Nat) (ciphertext : Option Nat)
  | record (serial_number : Nat) (tag : Nat) (origin : Nat)
  | externalRecord (id : Nat)
  deriving DecidableEq

/-- Modelled from the spec: `Input::id`, the identifier of an input.  Per the
spec's concrete scenario (section 8), a record input's identifier is its
serial number. -/
def Input.id : Input → Nat
  | .constant i _ => i
  | .public i _ => i
  | .priv i _ => i
  | .record sn _ _ => sn
  | .externalRecord i => i

/-- The eight maps of the transition input storage backend
(`InputStorage` / `InputMemory`). -/
@[ext]
structure Storage where
  id_map : AMap (List Nat)
  reverse_id_map : AMap Nat
  constant_map : AMap (Option Nat)
  public_map : AMap (Option Nat)
  private_map : AMap (Option Nat)
  record_map : AMap (Nat × Nat)
  record_tag_map : AMap Nat
  external_record_map : AMap Unit
  deriving DecidableEq

/-- `InputStorage::start_atomic`: start a batch on all eight maps. -/
def Storage.start_atomic (s : Storage) : Storage :=
  { id_map := s.id_map.start_atomic
    reverse_id_map := s.reverse_id_map.start_atomic
    constant_map := s.constant_map.start_atomic
    public_map := s.public_map.start_atomic
    private_map := s.private_map.start_atomic
    record_map := s.record_map.start_atomic
    record_tag_map := s.record_tag_map.start_atomic
    external_record_map := s.external_record_map.start_atomic }

/-- `InputStorage::is_atomic_in_progress`: true if any of the eight maps is batching. -/
def Storage.is_atomic_in_progress (s : Storage) : Bool :=
  s.id_map.is_atomic_in_progress
    || s.reverse_id_map.is_atomic_in_progress
    || s.constant_map.is_atomic_in_progress
    || s.public_map.is_atomic_in_progress
    || s.private_map.is_atomic_in_progress
    || s.record_map.is_atomic_in_progress
    || s.record_tag_map.is_atomic_in_progress
    || s.external_record_map.is_atomic_in_progress

/-- `InputStorage::abort_atomic`: abort on all eight maps. -/
def Storage.abort_atomic (s : Storage) : Storage :=
  { id_map := s.id_map.abort_atomic
    reverse_id_map := s.reverse_id_map.abort_atomic
    constant_map := s.constant_map.abort_atomic
    public_map := s.public_map.abort_atomic
    private_map := s.private_map.abort_atomic
    record_map := s.record_map.abort_atomic
    record_tag_map := s.record_tag_map.abort_atomic
    external_record_map := s.external_record_map.abort_atomic }

/-- `InputStorage::finish_atomic`: the eight per-map commits chained with `?`,
in the fixed source order (id, reverse_id, constant, public, private, record,
record_tag, external_record).  `ok i` says whether the `i`-th map's own commit
succeeds; an error is propagated immediately, leaving later maps uncommitted
while earlier maps keep their already-committed writes. -/
def Storage.finish_atomic (ok : Nat → Bool) (s : Storage) : Except Unit Unit × Storage :=
  match s.id_map.finish_atomic (ok 0) with
  | .error _ => (.error (), s)
  | .ok m0 =>
    let s0 : Storage := { s with id_map := m0 }
    match s0.reverse_id_map.finish_atomic (ok 1) with
    | .error _ => (.error (), s0)
    | .ok m1 =>
      let s1 : Storage := { s0 with reverse_id_map := m1 }
      match s1.constant_map.finish_atomic (ok 2) with
      | .error _ => (.error (), s1)
      | .ok m2 =>
        let s2 : Storage := { s1 with constant_map := m2 }
        match s2.public_map.finish_atomic (ok 3) with
        | .error _ => (.error (), s2)
        | .ok m3 =>
          let s3 : Storage := { s2 with public_map := m3 }
          match s3.private_map.finish_atomic (ok 4) with
          | .error _ => (.error (), s3)
          | .ok m4 =>
            let s4 : Storage := { s3 with private_map := m4 }
            match s4.record_map.finish_atomic (ok 5) with
            | .error _ => (.error (), s4)
            | .ok m5 =>
              let s5 : Storage := { s4 with record_map := m5 }
              match s5.record_tag_map.finish_atomic (ok 6) with
              | .error _ => (.error (), s5)
              | .ok m6 =>
                let s6 : Storage := { s5 with record_tag_map := m6 }
                match s6.external_record_map.finish_atomic (ok 7) with
                | .error _ => (.error (), s6)
                | .ok m7 => (.ok (), { s6 with external_record_map := m7 })

/-- The state threaded through the write sequence of `insert`: a counter of
write calls performed so far (used to induce a failure at a chosen write, as
in the spec's all-or-nothing test), the storage, and whether a write has
failed (after which the remaining writes are skipped, as `?` does). -/
structure StageSt where
  ctr : Nat
  st : Storage
  failed : Bool
  deriving DecidableEq

/-- One fallible write call: a no-op once failed, an induced error when the
counter matches `fault`, and otherwise the given map update. -/
def doWr (fault : Option Nat) (app : Storage → Storage) (σ : StageSt) : StageSt :=
  if σ.failed then σ
  else if fault = some σ.ctr then { σ with failed := true }
  else { ctr := σ.ctr + 1, st := app σ.st, failed := false }

/-- The per-input write sequence of `InputStorage::insert`: the reverse
input-ID write, then the variant dispatch (a record writes its tag first and
then the record itself). -/
def stageInput (fault : Option Nat) (tid : Nat) (σ : StageSt) (inp : Input) : StageSt :=
  let σ' := doWr fault (fun s => { s with reverse_id_map := s.reverse_id_map.insert inp.id tid }) σ
  match inp with
  | .constant i v => doWr fault (fun s => { s with constant_map := s.constant_map.insert i v }) σ'
  | .public i v => doWr fault (fun s => { s with public_map := s.public_map.insert i v }) σ'
  | .priv i v => doWr fault (fun s => { s with private_map := s.private_map.insert i v }) σ'
  | .record sn tg og =>
    let σ'' := doWr fault (fun s => { s with record_tag_map := s.record_tag_map.insert tg sn }) σ'
    doWr fault (fun s => { s with record_map := s.record_map.insert sn (tg, og) }) σ''
  | .externalRecord i =>
    doWr fault (fun s => { s with external_record_map := s.external_record_map.insert i () }) σ'

/-- How many map writes `insert` performs for one input. -/
def writeCount : Input → Nat
  | .record _ _ _ => 3
  | _ => 2

/-- The total number of map writes `insert` performs: one `id_map` write plus
the per-input writes. -/
def numWrites (inputs : List Input) : Nat :=
  1 + (inputs.map writeCount).sum

/-- `InputStorage::insert`: inside an atomic batch (the `atomic_write_batch!`
macro, modelled from the spec: start the batch, stage the writes, commit on
success and abort on a write error), store the ordered input-ID list in
`id_map`, then for every input its reverse mapping and its variant entry.
`fault = some k` induces a failure of the `k`-th write call (counted from 0),
modelling the spec's simulated backend write failure; `fault = none` is the
normal run. -/
def Storage.insert (fault : Option Nat) (tid : Nat) (inputs : List Input) (s : Storage) :
    Except Unit Unit × Storage :=
  let σ0 : StageSt := ⟨0, s.start_atomic, false⟩
  let σ1 := doWr fault (fun t => { t with id_map := t.id_map.insert tid (inputs.map Input.id) }) σ0
  let σ2 := inputs.foldl (stageInput fault tid) σ1
  if σ2.failed then (.error (), σ2.st.abort_atomic)
  else σ2.st.finish_atomic (fun _ => true)

/-- The per-input-ID removal sequence of `InputStorage::remove`: the reverse
mapping, the record tag (when the committed `record_map` still holds the ID),
then the entry of each of the five variant maps. -/
def removeStep (s : Storage) (iid : Nat) : Storage :=
  let s1 := { s with reverse_id_map := s.reverse_id_map.remove iid }
  let s2 :=
    match s1.record_map.get iid with
    | some r => { s1 with record_tag_map := s1.record_tag_map.remove r.1 }
    | none => s1
  let s3 := { s2 with constant_map := s2.constant_map.remove iid }
  let s4 := { s3 with public_map := s3.public_map.remove iid }
  let s5 := { s4 with private_map := s4.private_map.remove iid }
  let s6 := { s5 with record_map := s5.record_map.remove iid }
  { s6 with external_record_map := s6.external_record_map.remove iid }

/-- `InputStorage::remove`: read the stored input-ID list (absence is a
successful no-op), then inside an atomic batch delete the `id_map` entry and,
per input ID, the reverse mapping, the matching record tag and the variant
entries.  The in-memory writes are infallible, so the result is always `ok`. -/
def Storage.remove (tid : Nat) (s : Storage) : Except Unit Unit × Storage :=
  match s.id_map.get tid with
  | none => (.ok (), s)
  | some input_ids =>
    let s1 := s.start_atomic
    let s2 := { s1 with id_map := s1.id_map.remove tid }
    let s3 := input_ids.foldl removeStep s2
    s3.finish_atomic (fun _ => true)

/-- `InputStorage::find_transition_id`: the reverse lookup. -/
def Storage.find_transition_id (iid : Nat) (s : Storage) : Option Nat :=
  s.reverse_id_map.get iid

/-- `InputStorage::get_ids`: the stored input-ID list, or empty when absent. -/
def Storage.get_ids (tid : Nat) (s : Storage) : List Nat :=
  match s.id_map.get tid with
  | some ids => ids
  | none => []

/-- The consistency errors `get` can raise for an input ID. -/
inductive GetErr where
  | missing (iid : Nat)
  | multiple (iid : Nat)
  deriving DecidableEq

/-- The `construct_input` helper of `InputStorage::get`: probe all five
variant maps and require exactly one hit; zero hits is the missing-input
error, several hits the multiple-inputs error. -/
def construct_input (s : Storage) (iid : Nat) : Except GetErr Input :=
  match s.constant_map.get iid, s.public_map.get iid, s.private_map.get iid,
      s.record_map.get iid, s.external_record_map.get iid with
  | some c, none, none, none, none => .ok (.constant iid c)
  | none, some p, none, none, none => .ok (.public iid p)
  | none, none, some pr, none, none => .ok (.priv iid pr)
  | none, none, none, some r, none => .ok (.record iid r.1 r.2)
  | none, none, none, none, some _ => .ok (.externalRecord iid)
  | none, none, none, none, none => .error (.missing iid)
  | _, _, _, _, _ => .error (.multiple iid)

/-- The `collect` over `construct_input`: the first error short-circuits. -/
def collectInputs (s : Storage) : List Nat → Except GetErr (List Input)
  | [] => .ok []
  | iid :: rest =>
    match construct_input s iid with
    | .error e => .error e
    | .ok inp =>
      match collectInputs s rest with
      | .error e => .error e
      | .ok l => .ok (inp :: l)

/-- `InputStorage::get`: reconstruct the typed inputs of a transition, or the
empty list when the transition is absent. -/
def Storage.get (tid : Nat) (s : Storage) : Except GetErr (List Input) :=
  match s.id_map.get tid with
  | some ids => collectInputs s ids
  | none => .ok []

/-- `InputStore::contains_input_id`. -/
def Storage.contains_input_id (iid : Nat) (s : Storage) : Bool :=
  s.reverse_id_map.contains_key iid

/-- `InputStore::contains_serial_number`. -/
def Storage.contains_serial_number (sn : Nat) (s : Storage) : Bool :=
  s.record_map.contains_key sn

/-- `InputStore::contains_tag`. -/
def Storage.contains_tag (tag : Nat) (s : Storage) : Bool :=
  s.record_tag_map.contains_key tag

/-- No atomic batch is in progress on any of the eight maps. -/
def Idle (s : Storage) : Prop :=
  s.id_map.batch = none ∧ s.reverse_id_map.batch = none ∧ s.constant_map.batch = none ∧
    s.public_map.batch = none ∧ s.private_map.batch = none ∧ s.record_map.batch = none ∧
    s.record_tag_map.batch = none ∧ s.external_record_map.batch = none

/-- An atomic batch is in progress on every one of the eight maps. -/
def AllBatching (s : Storage) : Prop :=
  s.id_map.batch.isSome ∧ s.reverse_id_map.batch.isSome ∧ s.constant_map.batch.isSome ∧
    s.public_map.batch.isSome ∧ s.private_map.batch.isSome ∧ s.record_map.batch.isSome ∧
    s.record_tag_map.batch.isSome ∧ s.external_record_map.batch.isSome

/-- The freshly opened storage: all maps empty and idle. -/
def emptyStorage : Storage :=
  { id_map := ⟨[], none⟩, reverse_id_map := ⟨[], none⟩, constant_map := ⟨[], none⟩,
    public_map := ⟨[], none⟩, private_map := ⟨[], none⟩, record_map := ⟨[], none⟩,
    record_tag_map := ⟨[], none⟩, external_record_map := ⟨[], none⟩ }

/-- Appending a sequence of operations to a map: staged while batching,
applied directly otherwise.  `AMap.insert` and `AMap.remove` are the
singleton instances. -/
def AMap.stageOps {V : Type} (m : AMap V) (ops : List (BatchOp V)) : AMap V :=
  match m.batch with
  | some b => ⟨m.committed, some (b ++ ops)⟩
  | none => ⟨applyOps m.committed ops, none⟩

theorem AMap.insert_eq_stageOps {V : Type} (m : AMap V) (k : Nat) (v : V) :
    m.insert k v = m.stageOps [.ins k v] := by
  cases m with
  | mk c b => cases b <;> simp [AMap.insert, AMap.stageOps, applyOps, applyOp]

theorem AMap.remove_eq_stageOps {V : Type} (m : AMap V) (k : Nat) :
    m.remove k = m.stageOps [.del k] := by
  cases m with
  | mk c b => cases b <;> simp [AMap.remove, AMap.stageOps, applyOps, applyOp]

theorem AMap.stageOps_nil {V : Type} (m : AMap V) : m.stageOps [] = m := by
  cases m with
  | mk c b => cases b <;> simp [AMap.stageOps, applyOps]

theorem AMap.stageOps_stageOps {V : Type} (m : AMap V) (a b : List (BatchOp V)) :
    (m.stageOps a).stageOps b = m.stageOps (a ++ b) := by
  cases m with
  | mk c ob => cases ob <;> simp [AMap.stageOps, applyOps, List.foldl_append]

theorem AMap.stageOps_committed_of_batch {V : Type} (m : AMap V) (ops : List (BatchOp V))
    (h : m.batch.isSome) : (m.stageOps ops).committed = m.committed := by
  cases m with
  | mk c ob => cases ob <;> simp_all [AMap.stageOps]

theorem AMap.stageOps_batch_isSome {V : Type} (m : AMap V) (ops : List (BatchOp V))
    (h : m.batch.isSome) : (m.stageOps ops).batch.isSome := by
  cases m with
  | mk c ob => cases ob <;> simp_all [AMap.stageOps]

/-- The reverse-ID operations `insert` stages for an input list. -/
def revOps (tid : Nat) (L : List Input) : List (BatchOp Nat) :=
  L.map (fun inp => .ins inp.id tid)

/-- The constant-map operations `insert` stages for an input list. -/
def constOps (L : List Input) : List (BatchOp (Option Nat)) :=
  L.filterMap (fun inp =>
    match inp with
    | .constant i v => some (.ins i v)
    | _ => none)

/-- The public-map operations `insert` stages for an input list. -/
def pubOps (L : List Input) : List (BatchOp (Option Nat)) :=
  L.filterMap (fun inp =>
    match inp with
    | .public i v => some (.ins i v)
    | _ => none)

/-- The private-map operations `insert` stages for an input list. -/
def privOps (L : List Input) : List (BatchOp (Option Nat)) :=
  L.filterMap (fun inp =>
    match inp with
    | .priv i v => some (.ins i v)
    | _ => none)

/-- The record-map operations `insert` stages for an input list. -/
def recOps (L : List Input) : List (BatchOp (Nat × Nat)) :=
  L.filterMap (fun inp =>
    match inp with
    | .record sn tg og => some (.ins sn (tg, og))
    | _ => none)

/-- The record-tag operations `insert` stages for an input list. -/
def tagOps (L : List Input) : List (BatchOp Nat) :=
  L.filterMap (fun inp =>
    match inp with
    | .record sn tg _ => some (.ins tg sn)
    | _ => none)

/-- The external-record operations `insert` stages for an input list. -/
def extOps (L : List Input) : List (BatchOp Unit) :=
  L.filterMap (fun inp =>
    match inp with
    | .externalRecord i => some (.ins i ())
    | _ => none)

/-- The effect of the (non-failing) write sequence of one input. -/
def stageOne (tid : Nat) (inp : Input) (s : Storage) : Storage :=
  let s1 := { s with reverse_id_map := s.reverse_id_map.insert inp.id tid }
  match inp with
  | .constant i v => { s1 with constant_map := s1.constant_map.insert i v }
  | .public i v => { s1 with public_map := s1.public_map.insert i v }
  | .priv i v => { s1 with private_map := s1.private_map.insert i v }
  | .record sn tg og =>
    let s2 := { s1 with record_tag_map := s1.record_tag_map.insert tg sn }
    { s2 with record_map := s2.record_map.insert sn (tg, og) }
  | .externalRecord i => { s1 with external_record_map := s1.external_record_map.insert i () }

/-- The effect of the (non-failing) write sequence of a whole input list,
map by map. -/
def stageAll (tid : Nat) (L : List Input) (s : Storage) : Storage :=
  { id_map := s.id_map
    reverse_id_map := s.reverse_id_map.stageOps (revOps tid L)
    constant_map := s.constant_map.stageOps (constOps L)
    public_map := s.public_map.stageOps (pubOps L)
    private_map := s.private_map.stageOps (privOps L)
    record_map := s.record_map.stageOps (recOps L)
    record_tag_map := s.record_tag_map.stageOps (tagOps L)
    external_record_map := s.external_record_map.stageOps (extOps L) }

theorem stageAll_nil (tid : Nat) (s : Storage) : stageAll tid [] s = s := by
  simp [stageAll, revOps, constOps, pubOps, privOps, recOps, tagOps, extOps,
    AMap.stageOps_nil]

theorem stageAll_cons (tid : Nat) (inp : Input) (L : List Input) (s : Storage) :
    stageAll tid (inp :: L) s = stageAll tid L (stageOne tid inp s) := by
  cases inp <;>
    simp [stageAll, stageOne, revOps, constOps, pubOps, privOps, recOps, tagOps, extOps,
      AMap.insert_eq_stageOps, AMap.stageOps_stageOps, Input.id]

theorem doWr_ok (fault : Option Nat) (app : Storage → Storage) (σ : StageSt)
    (hf : σ.failed = false) (h : fault ≠ some σ.ctr) :
    doWr fault app σ = ⟨σ.ctr + 1, app σ.st, false⟩ := by
  simp [doWr, hf, h]

theorem doWr_hit (fault : Option Nat) (app : Storage → Storage) (σ : StageSt)
    (hf : σ.failed = false) (h : fault = some σ.ctr) :
    doWr fault app σ = { σ with failed := true } := by
  simp [doWr, hf, h]

theorem doWr_failed (fault : Option Nat) (app : Storage → Storage) (σ : StageSt)
    (hf : σ.failed = true) : doWr fault app σ = σ := by
  simp [doWr, hf]

theorem stageInput_failed (fault : Option Nat) (tid : Nat) (σ : StageSt) (inp : Input)
    (hf : σ.failed = true) : stageInput fault tid σ inp = σ := by
  cases inp <;> simp [stageInput, doWr_failed, hf]

theorem foldl_stageInput_failed (fault : Option Nat) (tid : Nat) (L : List Input)
    (σ : StageSt) (hf : σ.failed = true) : L.foldl (stageInput fault tid) σ = σ := by
  induction L with
  | nil => rfl
  | cons inp L ih => rw [List.foldl_cons, stageInput_failed fault tid σ inp hf, ih]

theorem stageInput_ok (fault : Option Nat) (tid : Nat) (inp : Input) (σ : StageSt)
    (hf : σ.failed = false)
    (h : ∀ j, fault = some j → j < σ.ctr ∨ σ.ctr + writeCount inp ≤ j) :
    stageInput fault tid σ inp = ⟨σ.ctr + writeCount inp, stageOne tid inp σ.st, false⟩ := by
  have h0 : fault ≠ some σ.ctr := by
    intro hc
    have hw : 1 ≤ writeCount inp := by cases inp <;> simp [writeCount]
    rcases h _ hc with h' | h' <;> omega
  cases inp with
  | constant i v =>
    have hw : writeCount (Input.constant i v) = 2 := rfl
    have h1 : fault ≠ some (σ.ctr + 1) := by
      intro hc; rcases h _ hc with h' | h' <;> omega
    simp [stageInput, doWr_ok _ _ _ hf h0, doWr_ok, h1, stageOne, writeCount]
  | public i v =>
    have hw : writeCount (Input.public i v) = 2 := rfl
    have h1 : fault ≠ some (σ.ctr + 1) := by
      intro hc; rcases h _ hc with h' | h' <;> omega
    simp [stageInput, doWr_ok _ _ _ hf h0, doWr_ok, h1, stageOne, writeCount]
  | priv i v =>
    have hw : writeCount (Input.priv i v) = 2 := rfl
    have h1 : fault ≠ some (σ.ctr + 1) := by
      intro hc; rcases h _ hc with h' | h' <;> omega
    simp [stageInput, doWr_ok _ _ _ hf h0, doWr_ok, h1, stageOne, writeCount]
  | record sn tg og =>
    have hw : writeCount (Input.record sn tg og) = 3 := rfl
    have h1 : fault ≠ some (σ.ctr + 1) := by
      intro hc; rcases h _ hc with h' | h' <;> omega
    have h2 : fault ≠ some (σ.ctr + 1 + 1) := by
      intro hc; rcases h _ hc with h' | h' <;> omega
    simp [stageInput, doWr_ok _ _ _ hf h0, doWr_ok, h1, h2, stageOne, writeCount]
  | externalRecord i =>
    have hw : writeCount (Input.externalRecord i) = 2 := rfl
    have h1 : fault ≠ some (σ.ctr + 1) := by
      intro hc; rcases h _ hc with h' | h' <;> omega
    simp [stageInput, doWr_ok _ _ _ hf h0, doWr_ok, h1, stageOne, writeCount]

theorem AMap.start_atomic_of_idle {V : Type} (m : AMap V) (h : m.batch = none) :
    m.start_atomic = ⟨m.committed, some []⟩ := by
  cases m with
  | mk c b => cases b <;> simp_all [AMap.start_atomic]

/-- Two storages agreeing on every committed (reader-visible) list. -/
def CommittedEq (s t : Storage) : Prop :=
  t.id_map.committed = s.id_map.committed ∧
    t.reverse_id_map.committed = s.reverse_id_map.committed ∧
    t.constant_map.committed = s.constant_map.committed ∧
    t.public_map.committed = s.public_map.committed ∧
    t.private_map.committed = s.private_map.committed ∧
    t.record_map.committed = s.record_map.committed ∧
    t.record_tag_map.committed = s.record_tag_map.committed ∧
    t.external_record_map.committed = s.external_record_map.committed

theorem committedEq_refl (s : Storage) : CommittedEq s s :=
  ⟨rfl, rfl, rfl, rfl, rfl, rfl, rfl, rfl⟩

theorem committedEq_trans {s t u : Storage} (h1 : CommittedEq s t) (h2 : CommittedEq t u) :
    CommittedEq s u := by
  obtain ⟨a1, a2, a3, a4, a5, a6, a7, a8⟩ := h1
  obtain ⟨b1, b2, b3, b4, b5, b6, b7, b8⟩ := h2
  exact ⟨b1.trans a1, b2.trans a2, b3.trans a3, b4.trans a4, b5.trans a5, b6.trans a6,
    b7.trans a7, b8.trans a8⟩

/-- A storage update that, while every map is batching, changes no committed
list and keeps every map batching. -/
def GoodApp (app : Storage → Storage) : Prop :=
  ∀ s, AllBatching s → CommittedEq s (app s) ∧ AllBatching (app s)

theorem goodApp_reverse (k v : Nat) :
    GoodApp (fun s => { s with reverse_id_map := s.reverse_id_map.insert k v }) := by
  intro s hb
  obtain ⟨b1, b2, b3, b4, b5, b6, b7, b8⟩ := hb
  refine ⟨⟨rfl, ?_, rfl, rfl, rfl, rfl, rfl, rfl⟩, ⟨b1, ?_, b3, b4, b5, b6, b7, b8⟩⟩
  · show (s.reverse_id_map.insert k v).committed = s.reverse_id_map.committed
    rw [AMap.insert_eq_stageOps]; exact AMap.stageOps_committed_of_batch _ _ b2
  · show (s.reverse_id_map.insert k v).batch.isSome = true
    rw [AMap.insert_eq_stageOps]; exact AMap.stageOps_batch_isSome _ _ b2

theorem goodApp_constant (k : Nat) (v : Option Nat) :
    GoodApp (fun s => { s with constant_map := s.constant_map.insert k v }) := by
  intro s hb
  obtain ⟨b1, b2, b3, b4, b5, b6, b7, b8⟩ := hb
  refine ⟨⟨rfl, rfl, ?_, rfl, rfl, rfl, rfl, rfl⟩, ⟨b1, b2, ?_, b4, b5, b6, b7, b8⟩⟩
  · show (s.constant_map.insert k v).committed = s.constant_map.committed
    rw [AMap.insert_eq_stageOps]; exact AMap.stageOps_committed_of_batch _ _ b3
  · show (s.constant_map.insert k v).batch.isSome = true
    rw [AMap.insert_eq_stageOps]; exact AMap.stageOps_batch_isSome _ _ b3

theorem goodApp_public (k : Nat) (v : Option Nat) :
    GoodApp (fun s => { s with public_map := s.public_map.insert k v }) := by
  intro s hb
  obtain ⟨b1, b2, b3, b4, b5, b6, b7, b8⟩ := hb
  refine ⟨⟨rfl, rfl, rfl, ?_, rfl, rfl, rfl, rfl⟩, ⟨b1, b2, b3, ?_, b5, b6, b7, b8⟩⟩
  · show (s.public_map.insert k v).committed = s.public_map.committed
    rw [AMap.insert_eq_stageOps]; exact AMap.stageOps_committed_of_batch _ _ b4
  · show (s.public_map.insert k v).batch.isSome = true
    rw [AMap.insert_eq_stageOps]; exact AMap.stageOps_batch_isSome _ _ b4

theorem goodApp_private (k : Nat) (v : Option Nat) :
    GoodApp (fun s => { s with private_map := s.private_map.insert k v }) := by
  intro s hb
  obtain ⟨b1, b2, b3, b4, b5, b6, b7, b8⟩ := hb
  refine ⟨⟨rfl, rfl, rfl, rfl, ?_, rfl, rfl, rfl⟩, ⟨b1, b2, b3, b4, ?_, b6, b7, b8⟩⟩
  · show (s.private_map.insert k v).committed = s.private_map.committed
    rw [AMap.insert_eq_stageOps]; exact AMap.stageOps_committed_of_batch _ _ b5
  · show (s.private_map.insert k v).batch.isSome = true
    rw [AMap.insert_eq_stageOps]; exact AMap.stageOps_batch_isSome _ _ b5

theorem goodApp_record (k : Nat) (v : Nat × Nat) :
    GoodApp (fun s => { s with record_map := s.record_map.insert k v }) := by
  intro s hb
  obtain ⟨b1, b2, b3, b4, b5, b6, b7, b8⟩ := hb
  refine ⟨⟨rfl, rfl, rfl, rfl, rfl, ?_, rfl, rfl⟩, ⟨b1, b2, b3, b4, b5, ?_, b7, b8⟩⟩
  · show (s.record_map.insert k v).committed = s.record_map.committed
    rw [AMap.insert_eq_stageOps]; exact AMap.stageOps_committed_of_batch _ _ b6
  · show (s.record_map.insert k v).batch.isSome = true
    rw [AMap.insert_eq_stageOps]; exact AMap.stageOps_batch_isSome _ _ b6

theorem goodApp_record_tag (k v : Nat) :
    GoodApp (fun s => { s with record_tag_map := s.record_tag_map.insert k v }) := by
  intro s hb
  obtain ⟨b1, b2, b3, b4, b5, b6, b7, b8⟩ := hb
  refine ⟨⟨rfl, rfl, rfl, rfl, rfl, rfl, ?_, rfl⟩, ⟨b1, b2, b3, b4, b5, b6, ?_, b8⟩⟩
  · show (s.record_tag_map.insert k v).committed = s.record_tag_map.committed
    rw [AMap.insert_eq_stageOps]; exact AMap.stageOps_committed_of_batch _ _ b7
  · show (s.record_tag_map.insert k v).batch.isSome = true
    rw [AMap.insert_eq_stageOps]; exact AMap.stageOps_batch_isSome _ _ b7

theorem goodApp_external (k : Nat) :
    GoodApp (fun s => { s with external_record_map := s.external_record_map.insert k () }) := by
  intro s hb
  obtain ⟨b1, b2, b3, b4, b5, b6, b7, b8⟩ := hb
  refine ⟨⟨rfl, rfl, rfl, rfl, rfl, rfl, rfl, ?_⟩, ⟨b1, b2, b3, b4, b5, b6, b7, ?_⟩⟩
  · show (s.external_record_map.insert k ()).committed = s.external_record_map.committed
    rw [AMap.insert_eq_stageOps]; exact AMap.stageOps_committed_of_batch _ _ b8
  · show (s.external_record_map.insert k ()).batch.isSome = true
    rw [AMap.insert_eq_stageOps]; exact AMap.stageOps_batch_isSome _ _ b8

theorem doWr_preserve (fault : Option Nat) (app : Storage → Storage) (σ : StageSt)
    (happ : GoodApp app) (hb : AllBatching σ.st) :
    CommittedEq σ.st (doWr fault app σ).st ∧ AllBatching (doWr fault app σ).st := by
  unfold doWr
  by_cases h1 : σ.failed
  · simpa [h1] using ⟨committedEq_refl _, hb⟩
  by_cases h2 : fault = some σ.ctr
  · simpa [h1, h2] using ⟨committedEq_refl _, hb⟩
  · simpa [h1, h2] using happ σ.st hb

theorem stageInput_preserve (fault : Option Nat) (tid : Nat) (σ : StageSt) (inp : Input)
    (hb : AllBatching σ.st) :
    CommittedEq σ.st (stageInput fault tid σ inp).st ∧
      AllBatching (stageInput fault tid σ inp).st := by
  cases inp with
  | constant i v =>
    simp only [stageInput]
    have h1 := doWr_preserve fault _ σ (goodApp_reverse (Input.id (.constant i v)) tid) hb
    have h2 := doWr_preserve fault _ _ (goodApp_constant i v) h1.2
    exact ⟨committedEq_trans h1.1 h2.1, h2.2⟩
  | public i v =>
    simp only [stageInput]
    have h1 := doWr_preserve fault _ σ (goodApp_reverse (Input.id (.public i v)) tid) hb
    have h2 := doWr_preserve fault _ _ (goodApp_public i v) h1.2
    exact ⟨committedEq_trans h1.1 h2.1, h2.2⟩
  | priv i v =>
    simp only [stageInput]
    have h1 := doWr_preserve fault _ σ (goodApp_reverse (Input.id (.priv i v)) tid) hb
    have h2 := doWr_preserve fault _ _ (goodApp_private i v) h1.2
    exact ⟨committedEq_trans h1.1 h2.1, h2.2⟩
  | record sn tg og =>
    simp only [stageInput]
    have h1 := doWr_preserve fault _ σ (goodApp_reverse (Input.id (.record sn tg og)) tid) hb
    have h2 := doWr_preserve fault _ _ (goodApp_record_tag tg sn) h1.2
    have h3 := doWr_preserve fault _ _ (goodApp_record sn (tg, og)) h2.2
    exact ⟨committedEq_trans (committedEq_trans h1.1 h2.1) h3.1, h3.2⟩
  | externalRecord i =>
    simp only [stageInput]
    have h1 := doWr_preserve fault _ σ (goodApp_reverse (Input.id (.externalRecord i)) tid) hb
    have h2 := doWr_preserve fault _ _ (goodApp_external i) h1.2
    exact ⟨committedEq_trans h1.1 h2.1, h2.2⟩

theorem foldl_stage_preserve (fault : Option Nat) (tid : Nat) (L : List Input) :
    ∀ σ : StageSt, AllBatching σ.st →
      CommittedEq σ.st ((L.foldl (stageInput fault tid) σ).st) ∧
        AllBatching ((L.foldl (stageInput fault tid) σ).st) := by
  induction L with
  | nil => exact fun σ hb => ⟨committedEq_refl _, hb⟩
  | cons inp L ih =>
    intro σ hb
    have h1 := stageInput_preserve fault tid σ inp hb
    have h2 := ih (stageInput fault tid σ inp) h1.2
    exact ⟨committedEq_trans h1.1 h2.1, h2.2⟩

theorem stage_foldl (fault : Option Nat) (tid : Nat) (L : List Input) :
    ∀ σ : StageSt, σ.failed = false →
      (∀ k, fault = some k → k < σ.ctr ∨ σ.ctr + (L.map writeCount).sum ≤ k) →
      L.foldl (stageInput fault tid) σ =
        ⟨σ.ctr + (L.map writeCount).sum, stageAll tid L σ.st, false⟩ := by
  induction L with
  | nil =>
    intro σ hf _
    cases σ with
    | mk c st f =>
      simp only at hf
      subst hf
      simp [stageAll_nil]
  | cons inp L ih =>
    intro σ hf h
    have hsum : (List.map writeCount (inp :: L)).sum
        = writeCount inp + (List.map writeCount L).sum := by simp
    have hstep : stageInput fault tid σ inp
        = ⟨σ.ctr + writeCount inp, stageOne tid inp σ.st, false⟩ := by
      apply stageInput_ok fault tid inp σ hf
      intro j hj
      rcases h _ hj with h' | h'
      · exact Or.inl h'
      · right; omega
    have hrange : ∀ k, fault = some k →
        k < σ.ctr + writeCount inp ∨
          (σ.ctr + writeCount inp) + (L.map writeCount).sum ≤ k := by
      intro k hk
      rcases h _ hk with h' | h'
      · exact Or.inl (by omega)
      · right; omega
    rw [List.foldl_cons, hstep,
      ih ⟨σ.ctr + writeCount inp, stageOne tid inp σ.st, false⟩ rfl hrange, stageAll_cons]
    simp [StageSt.mk.injEq] <;> omega

theorem stageInput_hit (fault : Option Nat) (tid : Nat) (inp : Input) (σ : StageSt) (k : Nat)
    (hf : σ.failed = false) (hk : fault = some k)
    (h1 : σ.ctr ≤ k) (h2 : k < σ.ctr + writeCount inp) :
    (stageInput fault tid σ inp).failed = true := by
  have hne1 : σ.ctr + 1 ≠ σ.ctr := by omega
  have hne2 : σ.ctr + 1 + 1 ≠ σ.ctr := by omega
  have hne3 : σ.ctr + 1 + 1 ≠ σ.ctr + 1 := by omega
  cases inp with
  | constant i v =>
    have hw : writeCount (Input.constant i v) = 2 := rfl
    have hc : k = σ.ctr ∨ k = σ.ctr + 1 := by omega
    rcases hc with h | h <;> subst h <;> simp [stageInput, doWr, hf, hk, hne1]
  | public i v =>
    have hw : writeCount (Input.public i v) = 2 := rfl
    have hc : k = σ.ctr ∨ k = σ.ctr + 1 := by omega
    rcases hc with h | h <;> subst h <;> simp [stageInput, doWr, hf, hk, hne1]
  | priv i v =>
    have hw : writeCount (Input.priv i v) = 2 := rfl
    have hc : k = σ.ctr ∨ k = σ.ctr + 1 := by omega
    rcases hc with h | h <;> subst h <;> simp [stageInput, doWr, hf, hk, hne1]
  | record sn tg og =>
    have hw : writeCount (Input.record sn tg og) = 3 := rfl
    have hc : k = σ.ctr ∨ k = σ.ctr + 1 ∨ k = σ.ctr + 1 + 1 := by omega
    rcases hc with h | h | h <;> subst h <;>
      simp [stageInput, doWr, hf, hk, hne1, hne2, hne3]
  | externalRecord i =>
    have hw : writeCount (Input.externalRecord i) = 2 := rfl
    have hc : k = σ.ctr ∨ k = σ.ctr + 1 := by omega
    rcases hc with h | h <;> subst h <;> simp [stageInput, doWr, hf, hk, hne1]

theorem stage_foldl_hit (fault : Option Nat) (tid : Nat) (L : List Input) :
    ∀ (σ : StageSt) (k : Nat), σ.failed = false → fault = some k →
      σ.ctr ≤ k → k < σ.ctr + (L.map writeCount).sum →
      (L.foldl (stageInput fault tid) σ).failed = true := by
  induction L with
  | nil => intro σ k _ _ h1 h2; simp at h2; omega
  | cons inp L ih =>
    intro σ k hf hk h1 h2
    have hsum : (List.map writeCount (inp :: L)).sum
        = writeCount inp + (List.map writeCount L).sum := by simp
    by_cases hcase : k < σ.ctr + writeCount inp
    · have hfail := stageInput_hit fault tid inp σ k hf hk h1 hcase
      rw [List.foldl_cons, foldl_stageInput_failed _ _ _ _ hfail]
      exact hfail
    · have hstep : stageInput fault tid σ inp
          = ⟨σ.ctr + writeCount inp, stageOne tid inp σ.st, false⟩ := by
        apply stageInput_ok fault tid inp σ hf
        intro j hj
        have hjk : j = k := by rw [hj] at hk; exact Option.some.inj hk
        right; omega
      rw [List.foldl_cons, hstep]
      refine ih _ k rfl hk ?_ ?_
      · show σ.ctr + writeCount inp ≤ k
        omega
      · show k < σ.ctr + writeCount inp + (List.map writeCount L).sum
        omega

theorem AMap.finish_atomic_true {V : Type} (m : AMap V) :
    m.finish_atomic true = .ok ⟨applyOps m.committed (m.batch.getD []), none⟩ := by
  cases m with
  | mk c b => cases b <;> simp [AMap.finish_atomic, applyOps]

theorem AMap.start_atomic_committed {V : Type} (m : AMap V) :
    m.start_atomic.committed = m.committed := by
  cases m with
  | mk c b => cases b <;> simp [AMap.start_atomic]

/-- The committed result of finishing with every per-map commit succeeding. -/
def commitAll (s : Storage) : Storage :=
  { id_map := ⟨applyOps s.id_map.committed (s.id_map.batch.getD []), none⟩
    reverse_id_map := ⟨applyOps s.reverse_id_map.committed (s.reverse_id_map.batch.getD []), none⟩
    constant_map := ⟨applyOps s.constant_map.committed (s.constant_map.batch.getD []), none⟩
    public_map := ⟨applyOps s.public_map.committed (s.public_map.batch.getD []), none⟩
    private_map := ⟨applyOps s.private_map.committed (s.private_map.batch.getD []), none⟩
    record_map := ⟨applyOps s.record_map.committed (s.record_map.batch.getD []), none⟩
    record_tag_map := ⟨applyOps s.record_tag_map.committed (s.record_tag_map.batch.getD []), none⟩
    external_record_map :=
      ⟨applyOps s.external_record_map.committed (s.external_record_map.batch.getD []), none⟩ }

theorem finish_atomic_all_true (s : Storage) :
    s.finish_atomic (fun _ => true) = (.ok (), commitAll s) := by
  simp [Storage.finish_atomic, AMap.finish_atomic_true, commitAll]

/-- The committed state a successful `insert` produces: the fresh `id_map`
binding plus each map's staged operation list applied to its old committed
list. -/
def insertPost (tid : Nat) (L : List Input) (s : Storage) : Storage :=
  { id_map := ⟨insertA s.id_map.committed tid (L.map Input.id), none⟩
    reverse_id_map := ⟨applyOps s.reverse_id_map.committed (revOps tid L), none⟩
    constant_map := ⟨applyOps s.constant_map.committed (constOps L), none⟩
    public_map := ⟨applyOps s.public_map.committed (pubOps L), none⟩
    private_map := ⟨applyOps s.private_map.committed (privOps L), none⟩
    record_map := ⟨applyOps s.record_map.committed (recOps L), none⟩
    record_tag_map := ⟨applyOps s.record_tag_map.committed (tagOps L), none⟩
    external_record_map := ⟨applyOps s.external_record_map.committed (extOps L), none⟩ }

theorem insert_ok_eq (fault : Option Nat) (tid : Nat) (L : List Input) (s : Storage)
    (hidle : Idle s) (hfault : ∀ k, fault = some k → numWrites L ≤ k) :
    s.insert fault tid L = (.ok (), insertPost tid L s) := by
  obtain ⟨i1, i2, i3, i4, i5, i6, i7, i8⟩ := hidle
  have h0 : fault ≠ some 0 := by
    intro hc; have := hfault 0 hc; simp [numWrites] at this
  have e1 : doWr fault (fun t => { t with id_map := t.id_map.insert tid (L.map Input.id) })
      ⟨0, s.start_atomic, false⟩
      = ⟨1, { s.start_atomic with
              id_map := s.start_atomic.id_map.insert tid (L.map Input.id) }, false⟩ := by
    simp [doWr, h0]
  have hr : ∀ k, fault = some k →
      k < (1 : Nat) ∨ 1 + (L.map writeCount).sum ≤ k := by
    intro k hk
    right
    have := hfault k hk
    simpa [numWrites] using this
  simp only [Storage.insert]
  rw [e1, stage_foldl fault tid L
    ⟨1, { s.start_atomic with
          id_map := s.start_atomic.id_map.insert tid (L.map Input.id) }, false⟩ rfl hr]
  simp only [Bool.false_eq_true, if_false]
  rw [finish_atomic_all_true]
  refine Prod.ext rfl ?_
  show commitAll (stageAll tid L _) = insertPost tid L s
  simp [commitAll, stageAll, insertPost, AMap.stageOps, AMap.insert, Storage.start_atomic,
    AMap.start_atomic_of_idle s.id_map i1, AMap.start_atomic_of_idle s.reverse_id_map i2,
    AMap.start_atomic_of_idle s.constant_map i3, AMap.start_atomic_of_idle s.public_map i4,
    AMap.start_atomic_of_idle s.private_map i5, AMap.start_atomic_of_idle s.record_map i6,
    AMap.start_atomic_of_idle s.record_tag_map i7,
    AMap.start_atomic_of_idle s.external_record_map i8,
    applyOps, applyOp]

theorem abort_of_committedEq (s t : Storage) (hidle : Idle s) (hc : CommittedEq s t) :
    t.abort_atomic = s := by
  obtain ⟨i1, i2, i3, i4, i5, i6, i7, i8⟩ := hidle
  obtain ⟨c1, c2, c3, c4, c5, c6, c7, c8⟩ := hc
  have haux : ∀ {V : Type} (m m' : AMap V), m'.committed = m.committed → m.batch = none →
      m'.abort_atomic = m := by
    intro V m m' hcm hbm
    cases m
    cases m'
    simp_all [AMap.abort_atomic]
  apply Storage.ext
  · exact haux s.id_map t.id_map c1 i1
  · exact haux s.reverse_id_map t.reverse_id_map c2 i2
  · exact haux s.constant_map t.constant_map c3 i3
  · exact haux s.public_map t.public_map c4 i4
  · exact haux s.private_map t.private_map c5 i5
  · exact haux s.record_map t.record_map c6 i6
  · exact haux s.record_tag_map t.record_tag_map c7 i7
  · exact haux s.external_record_map t.external_record_map c8 i8

theorem committedEq_start_atomic (s : Storage) : CommittedEq s s.start_atomic :=
  ⟨AMap.start_atomic_committed _, AMap.start_atomic_committed _, AMap.start_atomic_committed _,
    AMap.start_atomic_committed _, AMap.start_atomic_committed _, AMap.start_atomic_committed _,
    AMap.start_atomic_committed _, AMap.start_atomic_committed _⟩

theorem insert_fail_eq (fault : Option Nat) (tid : Nat) (L : List Input) (s : Storage) (k : Nat)
    (hidle : Idle s) (hk : fault = some k) (hlt : k < numWrites L) :
    s.insert fault tid L = (.error (), s) := by
  obtain ⟨i1, i2, i3, i4, i5, i6, i7, i8⟩ := hidle
  by_cases hk0 : k = 0
  · subst hk0
    have e1 : doWr fault (fun t => { t with id_map := t.id_map.insert tid (L.map Input.id) })
        ⟨0, s.start_atomic, false⟩ = ⟨0, s.start_atomic, true⟩ := by
      simp [doWr, hk]
    simp only [Storage.insert]
    rw [e1, foldl_stageInput_failed _ _ _ _ rfl]
    simp only [if_true]
    rw [abort_of_committedEq s s.start_atomic ⟨i1, i2, i3, i4, i5, i6, i7, i8⟩
      (committedEq_start_atomic s)]
  · have h0 : fault ≠ some 0 := by
      rw [hk]; intro hcc; have := Option.some.inj hcc; omega
    have e1 : doWr fault (fun t => { t with id_map := t.id_map.insert tid (L.map Input.id) })
        ⟨0, s.start_atomic, false⟩
        = ⟨1, { s.start_atomic with
                id_map := s.start_atomic.id_map.insert tid (L.map Input.id) }, false⟩ := by
      simp [doWr, h0]
    have hA : CommittedEq s
        { s.start_atomic with id_map := s.start_atomic.id_map.insert tid (L.map Input.id) } := by
      refine ⟨?_, AMap.start_atomic_committed _, AMap.start_atomic_committed _,
        AMap.start_atomic_committed _, AMap.start_atomic_committed _,
        AMap.start_atomic_committed _, AMap.start_atomic_committed _,
        AMap.start_atomic_committed _⟩
      show (s.id_map.start_atomic.insert tid (L.map Input.id)).committed = s.id_map.committed
      rw [AMap.start_atomic_of_idle s.id_map i1, AMap.insert_eq_stageOps]
      exact AMap.stageOps_committed_of_batch _ _ rfl
    have hAb : AllBatching
        { s.start_atomic with id_map := s.start_atomic.id_map.insert tid (L.map Input.id) } := by
      refine ⟨?_, ?_, ?_, ?_, ?_, ?_, ?_, ?_⟩
      · show (s.id_map.start_atomic.insert tid (L.map Input.id)).batch.isSome = true
        rw [AMap.start_atomic_of_idle s.id_map i1, AMap.insert_eq_stageOps]
        exact AMap.stageOps_batch_isSome _ _ rfl
      · show (s.reverse_id_map.start_atomic).batch.isSome = true
        rw [AMap.start_atomic_of_idle s.reverse_id_map i2]; rfl
      · show (s.constant_map.start_atomic).batch.isSome = true
        rw [AMap.start_atomic_of_idle s.constant_map i3]; rfl
      · show (s.public_map.start_atomic).batch.isSome = true
        rw [AMap.start_atomic_of_idle s.public_map i4]; rfl
      · show (s.private_map.start_atomic).batch.isSome = true
        rw [AMap.start_atomic_of_idle s.private_map i5]; rfl
      · show (s.record_map.start_atomic).batch.isSome = true
        rw [AMap.start_atomic_of_idle s.record_map i6]; rfl
      · show (s.record_tag_map.start_atomic).batch.isSome = true
        rw [AMap.start_atomic_of_idle s.record_tag_map i7]; rfl
      · show (s.external_record_map.start_atomic).batch.isSome = true
        rw [AMap.start_atomic_of_idle s.external_record_map i8]; rfl
    have hfail := stage_foldl_hit fault tid L
      ⟨1, { s.start_atomic with
            id_map := s.start_atomic.id_map.insert tid (L.map Input.id) }, false⟩ k rfl hk
      (by show 1 ≤ k; omega)
      (by show k < 1 + (L.map writeCount).sum
          have : numWrites L = 1 + (L.map writeCount).sum := rfl
          omega)
    have hpres := foldl_stage_preserve fault tid L
      ⟨1, { s.start_atomic with
            id_map := s.start_atomic.id_map.insert tid (L.map Input.id) }, false⟩ hAb
    simp only [Storage.insert]
    rw [e1]
    rw [if_pos hfail]
    rw [abort_of_committedEq s _ ⟨i1, i2, i3, i4, i5, i6, i7, i8⟩
      (committedEq_trans hA hpres.1)]

theorem applyOps_cons {V : Type} (l : List (Nat × V)) (op : BatchOp V) (ops : List (BatchOp V)) :
    applyOps l (op :: ops) = applyOps (applyOp l op) ops := rfl

theorem applyOps_nil {V : Type} (l : List (Nat × V)) : applyOps l [] = l := rfl

/-- Every operation of the list is an insertion. -/
def AllIns {V : Type} (ops : List (BatchOp V)) : Prop :=
  ∀ op ∈ ops, ∃ x v, op = BatchOp.ins x v

theorem lookup_applyOps_not_mem {V : Type} (ops : List (BatchOp V)) :
    ∀ (l : List (Nat × V)) (k : Nat), (∀ op ∈ ops, op.key ≠ k) →
      lookupA (applyOps l ops) k = lookupA l k := by
  induction ops with
  | nil => intro l k _; rfl
  | cons op ops ih =>
    intro l k h
    have hk := h op (List.mem_cons_self _ _)
    have hrest : ∀ op' ∈ ops, op'.key ≠ k := fun op' h' => h op' (List.mem_cons_of_mem _ h')
    rw [applyOps_cons, ih _ _ hrest]
    cases op with
    | ins x v => exact lookupA_insertA_ne _ _ _ _ (by simpa [BatchOp.key] using hk)
    | del x => exact lookupA_removeA_ne _ _ _ (by simpa [BatchOp.key] using hk)

theorem lookup_applyOps_same_value {V : Type} (ops : List (BatchOp V)) (t : V)
    (hall : ∀ op ∈ ops, ∃ x, op = BatchOp.ins x t) :
    ∀ (l : List (Nat × V)) (k : Nat),
      ((∃ op ∈ ops, op.key = k) ∨ lookupA l k = some t) →
      lookupA (applyOps l ops) k = some t := by
  induction ops with
  | nil =>
    intro l k h
    rcases h with ⟨op, hop, _⟩ | h
    · exact absurd hop (List.not_mem_nil _)
    · simpa [applyOps] using h
  | cons op ops ih =>
    intro l k h
    obtain ⟨x, rfl⟩ := hall op (List.mem_cons_self _ _)
    have hall' : ∀ op ∈ ops, ∃ y, op = BatchOp.ins y t :=
      fun op' h' => hall op' (List.mem_cons_of_mem _ h')
    rw [applyOps_cons]
    apply ih hall'
    rcases h with ⟨op', hop', hkey⟩ | h
    · rcases List.mem_cons.mp hop' with heq | hmem
      · right
        subst heq
        simp only [BatchOp.key] at hkey
        subst hkey
        exact lookupA_insertA_self _ _ _
      · exact Or.inl ⟨op', hmem, hkey⟩
    · right
      by_cases hxk : x = k
      · subst hxk
        exact lookupA_insertA_self _ _ _
      · show lookupA (insertA l x t) k = some t
        rw [lookupA_insertA_ne _ _ _ _ hxk]
        exact h

theorem lookup_applyOps_isSome {V : Type} (ops : List (BatchOp V)) (hall : AllIns ops) :
    ∀ (l : List (Nat × V)) (k : Nat),
      ((∃ op ∈ ops, op.key = k) ∨ (lookupA l k).isSome = true) →
      (lookupA (applyOps l ops) k).isSome = true := by
  induction ops with
  | nil =>
    intro l k h
    rcases h with ⟨op, hop, _⟩ | h
    · exact absurd hop (List.not_mem_nil _)
    · simpa [applyOps] using h
  | cons op ops ih =>
    intro l k h
    obtain ⟨x, v, rfl⟩ := hall op (List.mem_cons_self _ _)
    have hall' : AllIns ops := fun op' h' => hall op' (List.mem_cons_of_mem _ h')
    rw [applyOps_cons]
    apply ih hall'
    rcases h with ⟨op', hop', hkey⟩ | h
    · rcases List.mem_cons.mp hop' with heq | hmem
      · right
        subst heq
        simp only [BatchOp.key] at hkey
        subst hkey
        show (lookupA (insertA l x v) x).isSome = true
        simp [lookupA_insertA_self]
      · exact Or.inl ⟨op', hmem, hkey⟩
    · right
      by_cases hxk : x = k
      · subst hxk
        show (lookupA (insertA l x v) x).isSome = true
        simp [lookupA_insertA_self]
      · show (lookupA (insertA l x v) k).isSome = true
        rw [lookupA_insertA_ne _ _ _ _ hxk]
        exact h

theorem lookup_applyOps_nodup {V : Type} (ops : List (BatchOp V)) :
    ∀ (l : List (Nat × V)) (k : Nat) (v : V), AllIns ops →
      (ops.map BatchOp.key).Nodup → BatchOp.ins k v ∈ ops →
      lookupA (applyOps l ops) k = some v := by
  induction ops with
  | nil => intro l k v _ _ h; exact absurd h (List.not_mem_nil _)
  | cons op ops ih =>
    intro l k v hall hnd hmem
    obtain ⟨x, w, rfl⟩ := hall op (List.mem_cons_self _ _)
    rw [applyOps_cons]
    rcases List.mem_cons.mp hmem with heq | hmem'
    · cases heq
      have hnd' : (k :: ops.map BatchOp.key).Nodup := by simpa [BatchOp.key] using hnd
      have hnotin : ∀ op' ∈ ops, op'.key ≠ k := by
        intro op' hop' hkeq
        exact (List.nodup_cons.mp hnd').1 (hkeq ▸ List.mem_map_of_mem BatchOp.key hop')
      rw [lookup_applyOps_not_mem _ _ _ hnotin]
      exact lookupA_insertA_self _ _ _
    · refine ih _ k v (fun o ho => hall o (List.mem_cons_of_mem _ ho)) ?_ hmem'
      have hnd' : (x :: ops.map BatchOp.key).Nodup := by simpa [BatchOp.key] using hnd
      exact (List.nodup_cons.mp hnd').2

theorem lookup_applyOps_all_del {V : Type} (ops : List (BatchOp V))
    (hall : ∀ op ∈ ops, ∃ x, op = BatchOp.del x) :
    ∀ (l : List (Nat × V)) (k : Nat),
      ((∃ op ∈ ops, op.key = k) ∨ lookupA l k = none) →
      lookupA (applyOps l ops) k = none := by
  induction ops with
  | nil =>
    intro l k h
    rcases h with ⟨op, hop, _⟩ | h
    · exact absurd hop (List.not_mem_nil _)
    · simpa [applyOps] using h
  | cons op ops ih =>
    intro l k h
    obtain ⟨x, rfl⟩ := hall op (List.mem_cons_self _ _)
    have hall' : ∀ op ∈ ops, ∃ y, op = BatchOp.del y :=
      fun op' h' => hall op' (List.mem_cons_of_mem _ h')
    rw [applyOps_cons]
    apply ih hall'
    rcases h with ⟨op', hop', hkey⟩ | h
    · rcases List.mem_cons.mp hop' with heq | hmem
      · right
        subst heq
        simp only [BatchOp.key] at hkey
        subst hkey
        exact lookupA_removeA_self _ _
      · exact Or.inl ⟨op', hmem, hkey⟩
    · right
      by_cases hxk : x = k
      · subst hxk
        exact lookupA_removeA_self _ _
      · show lookupA (removeA l x) k = none
        rw [lookupA_removeA_ne _ _ _ hxk]
        exact h

theorem all_ins_revOps (tid : Nat) (L : List Input) :
    ∀ op ∈ revOps tid L, ∃ x, op = BatchOp.ins x tid := by
  intro op hop
  obtain ⟨inp, _, heq⟩ := List.mem_map.mp hop
  exact ⟨inp.id, heq.symm⟩

theorem allIns_revOps (tid : Nat) (L : List Input) : AllIns (revOps tid L) := by
  intro op hop
  obtain ⟨x, rfl⟩ := all_ins_revOps tid L op hop
  exact ⟨x, tid, rfl⟩

theorem keys_revOps (tid : Nat) (L : List Input) :
    (revOps tid L).map BatchOp.key = L.map Input.id := by
  simp [revOps, List.map_map, Function.comp, BatchOp.key]

theorem allIns_filterMap {V : Type} (f : Input → Option (BatchOp V)) (L : List Input)
    (hf : ∀ inp op, f inp = some op → ∃ x v, op = BatchOp.ins x v) :
    AllIns (L.filterMap f) := by
  intro op hop
  obtain ⟨inp, _, hfi⟩ := List.mem_filterMap.mp hop
  exact hf inp op hfi

theorem allIns_constOps (L : List Input) : AllIns (constOps L) :=
  allIns_filterMap _ L (by intro inp op h; cases inp <;> simp at h <;> exact ⟨_, _, h.symm⟩)

theorem allIns_pubOps (L : List Input) : AllIns (pubOps L) :=
  allIns_filterMap _ L (by intro inp op h; cases inp <;> simp at h <;> exact ⟨_, _, h.symm⟩)

theorem allIns_privOps (L : List Input) : AllIns (privOps L) :=
  allIns_filterMap _ L (by intro inp op h; cases inp <;> simp at h <;> exact ⟨_, _, h.symm⟩)

theorem allIns_recOps (L : List Input) : AllIns (recOps L) :=
  allIns_filterMap _ L (by intro inp op h; cases inp <;> simp at h <;> exact ⟨_, _, h.symm⟩)

theorem allIns_tagOps (L : List Input) : AllIns (tagOps L) :=
  allIns_filterMap _ L (by intro inp op h; cases inp <;> simp at h <;> exact ⟨_, _, h.symm⟩)

theorem allIns_extOps (L : List Input) : AllIns (extOps L) :=
  allIns_filterMap _ L (by intro inp op h; cases inp <;> simp at h <;> exact ⟨_, _, h.symm⟩)

theorem mem_revOps (tid : Nat) (L : List Input) (inp : Input) (h : inp ∈ L) :
    BatchOp.ins inp.id tid ∈ revOps tid L :=
  List.mem_map_of_mem _ h

theorem mem_constOps (i : Nat) (v : Option Nat) (L : List Input)
    (h : Input.constant i v ∈ L) : BatchOp.ins i v ∈ constOps L :=
  List.mem_filterMap.mpr ⟨_, h, rfl⟩

theorem mem_pubOps (i : Nat) (v : Option Nat) (L : List Input)
    (h : Input.public i v ∈ L) : BatchOp.ins i v ∈ pubOps L :=
  List.mem_filterMap.mpr ⟨_, h, rfl⟩

theorem mem_privOps (i : Nat) (v : Option Nat) (L : List Input)
    (h : Input.priv i v ∈ L) : BatchOp.ins i v ∈ privOps L :=
  List.mem_filterMap.mpr ⟨_, h, rfl⟩

theorem mem_recOps (sn tg og : Nat) (L : List Input)
    (h : Input.record sn tg og ∈ L) : BatchOp.ins sn (tg, og) ∈ recOps L :=
  List.mem_filterMap.mpr ⟨_, h, rfl⟩

theorem mem_tagOps (sn tg og : Nat) (L : List Input)
    (h : Input.record sn tg og ∈ L) : BatchOp.ins tg sn ∈ tagOps L :=
  List.mem_filterMap.mpr ⟨_, h, rfl⟩

theorem mem_extOps (i : Nat) (L : List Input)
    (h : Input.externalRecord i ∈ L) : BatchOp.ins i () ∈ extOps L :=
  List.mem_filterMap.mpr ⟨_, h, rfl⟩

theorem key_constOps (L : List Input) (i : Nat)
    (h : i ∈ (constOps L).map BatchOp.key) : ∃ v, Input.constant i v ∈ L := by
  obtain ⟨op, hop, hkey⟩ := List.mem_map.mp h
  obtain ⟨inp, hmem, hfi⟩ := List.mem_filterMap.mp hop
  cases inp <;> simp at hfi
  case constant j w =>
    subst hfi
    simp [BatchOp.key] at hkey
    subst hkey
    exact ⟨w, hmem⟩

theorem key_pubOps (L : List Input) (i : Nat)
    (h : i ∈ (pubOps L).map BatchOp.key) : ∃ v, Input.public i v ∈ L := by
  obtain ⟨op, hop, hkey⟩ := List.mem_map.mp h
  obtain ⟨inp, hmem, hfi⟩ := List.mem_filterMap.mp hop
  cases inp <;> simp at hfi
  case public j w =>
    subst hfi
    simp [BatchOp.key] at hkey
    subst hkey
    exact ⟨w, hmem⟩

theorem key_privOps (L : List Input) (i : Nat)
    (h : i ∈ (privOps L).map BatchOp.key) : ∃ v, Input.priv i v ∈ L := by
  obtain ⟨op, hop, hkey⟩ := List.mem_map.mp h
  obtain ⟨inp, hmem, hfi⟩ := List.mem_filterMap.mp hop
  cases inp <;> simp at hfi
  case priv j w =>
    subst hfi
    simp [BatchOp.key] at hkey
    subst hkey
    exact ⟨w, hmem⟩

theorem key_recOps (L : List Input) (i : Nat)
    (h : i ∈ (recOps L).map BatchOp.key) : ∃ tg og, Input.record i tg og ∈ L := by
  obtain ⟨op, hop, hkey⟩ := List.mem_map.mp h
  obtain ⟨inp, hmem, hfi⟩ := List.mem_filterMap.mp hop
  cases inp <;> simp at hfi
  case record sn tg og =>
    subst hfi
    simp [BatchOp.key] at hkey
    subst hkey
    exact ⟨tg, og, hmem⟩

theorem key_tagOps (L : List Input) (i : Nat)
    (h : i ∈ (tagOps L).map BatchOp.key) : ∃ sn og, Input.record sn i og ∈ L := by
  obtain ⟨op, hop, hkey⟩ := List.mem_map.mp h
  obtain ⟨inp, hmem, hfi⟩ := List.mem_filterMap.mp hop
  cases inp <;> simp at hfi
  case record sn tg og =>
    subst hfi
    simp [BatchOp.key] at hkey
    subst hkey
    exact ⟨sn, og, hmem⟩

theorem key_extOps (L : List Input) (i : Nat)
    (h : i ∈ (extOps L).map BatchOp.key) : Input.externalRecord i ∈ L := by
  obtain ⟨op, hop, hkey⟩ := List.mem_map.mp h
  obtain ⟨inp, hmem, hfi⟩ := List.mem_filterMap.mp hop
  cases inp <;> simp at hfi
  case externalRecord j =>
    subst hfi
    simp [BatchOp.key] at hkey
    subst hkey
    exact hmem

theorem keys_filterMap_sublist {V : Type} (f : Input → Option (BatchOp V)) (L : List Input)
    (hf : ∀ inp op, f inp = some op → op.key = inp.id) :
    List.Sublist ((L.filterMap f).map BatchOp.key) (L.map Input.id) := by
  induction L with
  | nil => simp
  | cons inp L ih =>
    cases hfi : f inp with
    | none =>
      simp only [List.filterMap_cons, hfi, List.map_cons]
      exact ih.cons _
    | some op =>
      simp only [List.filterMap_cons, hfi, List.map_cons, hf inp op hfi]
      exact ih.cons₂ _

theorem keys_constOps_nodup (L : List Input) (hnd : (L.map Input.id).Nodup) :
    ((constOps L).map BatchOp.key).Nodup := by
  refine List.Nodup.sublist (keys_filterMap_sublist _ L ?_) hnd
  intro inp op h
  cases inp <;> simp at h <;> subst h <;> rfl

theorem keys_pubOps_nodup (L : List Input) (hnd : (L.map Input.id).Nodup) :
    ((pubOps L).map BatchOp.key).Nodup := by
  refine List.Nodup.sublist (keys_filterMap_sublist _ L ?_) hnd
  intro inp op h
  cases inp <;> simp at h <;> subst h <;> rfl

theorem keys_privOps_nodup (L : List Input) (hnd : (L.map Input.id).Nodup) :
    ((privOps L).map BatchOp.key).Nodup := by
  refine List.Nodup.sublist (keys_filterMap_sublist _ L ?_) hnd
  intro inp op h
  cases inp <;> simp at h <;> subst h <;> rfl

theorem keys_recOps_nodup (L : List Input) (hnd : (L.map Input.id).Nodup) :
    ((recOps L).map BatchOp.key).Nodup := by
  refine List.Nodup.sublist (keys_filterMap_sublist _ L ?_) hnd
  intro inp op h
  cases inp <;> simp at h <;> subst h <;> rfl

theorem keys_extOps_nodup (L : List Input) (hnd : (L.map Input.id).Nodup) :
    ((extOps L).map BatchOp.key).Nodup := by
  refine List.Nodup.sublist (keys_filterMap_sublist _ L ?_) hnd
  intro inp op h
  cases inp <;> simp at h <;> subst h <;> rfl

theorem insertPost_id_get (tid : Nat) (L : List Input) (s : Storage) (t' : Nat) :
    (insertPost tid L s).id_map.get t'
      = lookupA (insertA s.id_map.committed tid (L.map Input.id)) t' := rfl

theorem insertPost_rev_get (tid : Nat) (L : List Input) (s : Storage) (x : Nat) :
    (insertPost tid L s).reverse_id_map.get x
      = lookupA (applyOps s.reverse_id_map.committed (revOps tid L)) x := rfl

theorem insertPost_const_get (tid : Nat) (L : List Input) (s : Storage) (x : Nat) :
    (insertPost tid L s).constant_map.get x
      = lookupA (applyOps s.constant_map.committed (constOps L)) x := rfl

theorem insertPost_pub_get (tid : Nat) (L : List Input) (s : Storage) (x : Nat) :
    (insertPost tid L s).public_map.get x
      = lookupA (applyOps s.public_map.committed (pubOps L)) x := rfl

theorem insertPost_priv_get (tid : Nat) (L : List Input) (s : Storage) (x : Nat) :
    (insertPost tid L s).private_map.get x
      = lookupA (applyOps s.private_map.committed (privOps L)) x := rfl

theorem insertPost_rec_get (tid : Nat) (L : List Input) (s : Storage) (x : Nat) :
    (insertPost tid L s).record_map.get x
      = lookupA (applyOps s.record_map.committed (recOps L)) x := rfl

theorem insertPost_tag_get (tid : Nat) (L : List Input) (s : Storage) (x : Nat) :
    (insertPost tid L s).record_tag_map.get x
      = lookupA (applyOps s.record_tag_map.committed (tagOps L)) x := rfl

theorem insertPost_ext_get (tid : Nat) (L : List Input) (s : Storage) (x : Nat) :
    (insertPost tid L s).external_record_map.get x
      = lookupA (applyOps s.external_record_map.committed (extOps L)) x := rfl

theorem insertPost_id_self (tid : Nat) (L : List Input) (s : Storage) :
    (insertPost tid L s).id_map.get tid = some (L.map Input.id) := by
  rw [insertPost_id_get]
  exact lookupA_insertA_self _ _ _

theorem insertPost_rev_some (tid : Nat) (L : List Input) (s : Storage) (inp : Input)
    (hmem : inp ∈ L) : (insertPost tid L s).reverse_id_map.get inp.id = some tid := by
  rw [insertPost_rev_get]
  exact lookup_applyOps_same_value (revOps tid L) tid (all_ins_revOps tid L) _ _
    (Or.inl ⟨_, mem_revOps tid L inp hmem, rfl⟩)

theorem insertPost_rev_not_mem (tid : Nat) (L : List Input) (s : Storage) (x : Nat)
    (h : x ∉ L.map Input.id) :
    (insertPost tid L s).reverse_id_map.get x = s.reverse_id_map.get x := by
  rw [insertPost_rev_get]
  apply lookup_applyOps_not_mem
  intro op hop hkey
  apply h
  rw [← keys_revOps tid L]
  exact hkey ▸ List.mem_map_of_mem _ hop

theorem insertPost_const_value (tid : Nat) (L : List Input) (s : Storage) (i : Nat)
    (v : Option Nat) (hnd : (L.map Input.id).Nodup) (hmem : Input.constant i v ∈ L) :
    (insertPost tid L s).constant_map.get i = some v := by
  rw [insertPost_const_get]
  exact lookup_applyOps_nodup (constOps L) _ i v (allIns_constOps L)
    (keys_constOps_nodup L hnd) (mem_constOps i v L hmem)

theorem insertPost_pub_value (tid : Nat) (L : List Input) (s : Storage) (i : Nat)
    (v : Option Nat) (hnd : (L.map Input.id).Nodup) (hmem : Input.public i v ∈ L) :
    (insertPost tid L s).public_map.get i = some v := by
  rw [insertPost_pub_get]
  exact lookup_applyOps_nodup (pubOps L) _ i v (allIns_pubOps L)
    (keys_pubOps_nodup L hnd) (mem_pubOps i v L hmem)

theorem insertPost_priv_value (tid : Nat) (L : List Input) (s : Storage) (i : Nat)
    (v : Option Nat) (hnd : (L.map Input.id).Nodup) (hmem : Input.priv i v ∈ L) :
    (insertPost tid L s).private_map.get i = some v := by
  rw [insertPost_priv_get]
  exact lookup_applyOps_nodup (privOps L) _ i v (allIns_privOps L)
    (keys_privOps_nodup L hnd) (mem_privOps i v L hmem)

theorem insertPost_rec_value (tid : Nat) (L : List Input) (s : Storage) (sn tg og : Nat)
    (hnd : (L.map Input.id).Nodup) (hmem : Input.record sn tg og ∈ L) :
    (insertPost tid L s).record_map.get sn = some (tg, og) := by
  rw [insertPost_rec_get]
  exact lookup_applyOps_nodup (recOps L) _ sn (tg, og) (allIns_recOps L)
    (keys_recOps_nodup L hnd) (mem_recOps sn tg og L hmem)

theorem insertPost_ext_value (tid : Nat) (L : List Input) (s : Storage) (i : Nat)
    (hnd : (L.map Input.id).Nodup) (hmem : Input.externalRecord i ∈ L) :
    (insertPost tid L s).external_record_map.get i = some () := by
  rw [insertPost_ext_get]
  exact lookup_applyOps_nodup (extOps L) _ i () (allIns_extOps L)
    (keys_extOps_nodup L hnd) (mem_extOps i L hmem)

theorem insertPost_const_unchanged (tid : Nat) (L : List Input) (s : Storage) (i : Nat)
    (h : ∀ v, Input.constant i v ∉ L) :
    (insertPost tid L s).constant_map.get i = s.constant_map.get i := by
  rw [insertPost_const_get]
  apply lookup_applyOps_not_mem
  intro op hop hkey
  obtain ⟨v, hv⟩ := key_constOps L i (hkey ▸ List.mem_map_of_mem _ hop)
  exact h v hv

theorem insertPost_pub_unchanged (tid : Nat) (L : List Input) (s : Storage) (i : Nat)
    (h : ∀ v, Input.public i v ∉ L) :
    (insertPost tid L s).public_map.get i = s.public_map.get i := by
  rw [insertPost_pub_get]
  apply lookup_applyOps_not_mem
  intro op hop hkey
  obtain ⟨v, hv⟩ := key_pubOps L i (hkey ▸ List.mem_map_of_mem _ hop)
  exact h v hv

theorem insertPost_priv_unchanged (tid : Nat) (L : List Input) (s : Storage) (i : Nat)
    (h : ∀ v, Input.priv i v ∉ L) :
    (insertPost tid L s).private_map.get i = s.private_map.get i := by
  rw [insertPost_priv_get]
  apply lookup_applyOps_not_mem
  intro op hop hkey
  obtain ⟨v, hv⟩ := key_privOps L i (hkey ▸ List.mem_map_of_mem _ hop)
  exact h v hv

theorem insertPost_rec_unchanged (tid : Nat) (L : List Input) (s : Storage) (i : Nat)
    (h : ∀ tg og, Input.record i tg og ∉ L) :
    (insertPost tid L s).record_map.get i = s.record_map.get i := by
  rw [insertPost_rec_get]
  apply lookup_applyOps_not_mem
  intro op hop hkey
  obtain ⟨tg, og, hv⟩ := key_recOps L i (hkey ▸ List.mem_map_of_mem _ hop)
  exact h tg og hv

theorem insertPost_ext_unchanged (tid : Nat) (L : List Input) (s : Storage) (i : Nat)
    (h : Input.externalRecord i ∉ L) :
    (insertPost tid L s).external_record_map.get i = s.external_record_map.get i := by
  rw [insertPost_ext_get]
  apply lookup_applyOps_not_mem
  intro op hop hkey
  exact h (key_extOps L i (hkey ▸ List.mem_map_of_mem _ hop))

theorem insertPost_const_present (tid : Nat) (L : List Input) (s : Storage) (i : Nat)
    (v : Option Nat) (hmem : Input.constant i v ∈ L) :
    ((insertPost tid L s).constant_map.get i).isSome = true := by
  rw [insertPost_const_get]
  exact lookup_applyOps_isSome (constOps L) (allIns_constOps L) _ _
    (Or.inl ⟨_, mem_constOps i v L hmem, rfl⟩)

theorem insertPost_pub_present (tid : Nat) (L : List Input) (s : Storage) (i : Nat)
    (v : Option Nat) (hmem : Input.public i v ∈ L) :
    ((insertPost tid L s).public_map.get i).isSome = true := by
  rw [insertPost_pub_get]
  exact lookup_applyOps_isSome (pubOps L) (allIns_pubOps L) _ _
    (Or.inl ⟨_, mem_pubOps i v L hmem, rfl⟩)

theorem insertPost_priv_present (tid : Nat) (L : List Input) (s : Storage) (i : Nat)
    (v : Option Nat) (hmem : Input.priv i v ∈ L) :
    ((insertPost tid L s).private_map.get i).isSome = true := by
  rw [insertPost_priv_get]
  exact lookup_applyOps_isSome (privOps L) (allIns_privOps L) _ _
    (Or.inl ⟨_, mem_privOps i v L hmem, rfl⟩)

theorem insertPost_rec_present (tid : Nat) (L : List Input) (s : Storage) (sn tg og : Nat)
    (hmem : Input.record sn tg og ∈ L) :
    ((insertPost tid L s).record_map.get sn).isSome = true := by
  rw [insertPost_rec_get]
  exact lookup_applyOps_isSome (recOps L) (allIns_recOps L) _ _
    (Or.inl ⟨_, mem_recOps sn tg og L hmem, rfl⟩)

theorem insertPost_tag_present (tid : Nat) (L : List Input) (s : Storage) (sn tg og : Nat)
    (hmem : Input.record sn tg og ∈ L) :
    ((insertPost tid L s).record_tag_map.get tg).isSome = true := by
  rw [insertPost_tag_get]
  exact lookup_applyOps_isSome (tagOps L) (allIns_tagOps L) _ _
    (Or.inl ⟨_, mem_tagOps sn tg og L hmem, rfl⟩)

theorem insertPost_ext_present (tid : Nat) (L : List Input) (s : Storage) (i : Nat)
    (hmem : Input.externalRecord i ∈ L) :
    ((insertPost tid L s).external_record_map.get i).isSome = true := by
  rw [insertPost_ext_get]
  exact lookup_applyOps_isSome (extOps L) (allIns_extOps L) _ _
    (Or.inl ⟨_, mem_extOps i L hmem, rfl⟩)

/-- How many of the five variant maps hold the given input ID. -/
def hitCount (s : Storage) (iid : Nat) : Nat :=
  (if (s.constant_map.get iid).isSome then 1 else 0) +
    (if (s.public_map.get iid).isSome then 1 else 0) +
    (if (s.private_map.get iid).isSome then 1 else 0) +
    (if (s.record_map.get iid).isSome then 1 else 0) +
    (if (s.external_record_map.get iid).isSome then 1 else 0)

theorem construct_input_missing (s : Storage) (iid : Nat) (h : hitCount s iid = 0) :
    construct_input s iid = .error (.missing iid) := by
  unfold hitCount at h
  unfold construct_input
  cases hc : s.constant_map.get iid <;> cases hp : s.public_map.get iid <;>
    cases hpr : s.private_map.get iid <;> cases hr : s.record_map.get iid <;>
    cases he : s.external_record_map.get iid <;>
    simp only [hc, hp, hpr, hr, he, Option.isSome_some, Option.isSome_none, if_true, if_false,
      Bool.false_eq_true, ite_false, ite_true] at h <;>
    first
      | rfl
      | omega

theorem construct_input_multiple (s : Storage) (iid : Nat) (h : 2 ≤ hitCount s iid) :
    construct_input s iid = .error (.multiple iid) := by
  unfold hitCount at h
  unfold construct_input
  cases hc : s.constant_map.get iid <;> cases hp : s.public_map.get iid <;>
    cases hpr : s.private_map.get iid <;> cases hr : s.record_map.get iid <;>
    cases he : s.external_record_map.get iid <;>
    simp only [hc, hp, hpr, hr, he, Option.isSome_some, Option.isSome_none, if_true, if_false,
      Bool.false_eq_true, ite_false, ite_true] at h <;>
    first
      | rfl
      | omega

theorem collectInputs_ok_of (t : Storage) (L : List Input)
    (h : ∀ inp ∈ L, construct_input t inp.id = .ok inp) :
    collectInputs t (L.map Input.id) = .ok L := by
  induction L with
  | nil => rfl
  | cons inp L ih =>
    simp only [List.map_cons, collectInputs]
    rw [h inp (List.mem_cons_self _ _), ih (fun i hi => h i (List.mem_cons_of_mem _ hi))]

theorem collectInputs_mem_ok (t : Storage) (ids : List Nat) :
    ∀ (l : List Input), collectInputs t ids = .ok l →
      ∀ iid ∈ ids, ∃ inp, construct_input t iid = .ok inp := by
  induction ids with
  | nil => intro l _ iid hm; exact absurd hm (List.not_mem_nil _)
  | cons iid0 ids ih =>
    intro l h iid hm
    simp only [collectInputs] at h
    cases hc : construct_input t iid0 with
    | error e =>
      rw [hc] at h
      exact absurd h (by simp)
    | ok inp =>
      rw [hc] at h
      cases hrest : collectInputs t ids with
      | error e =>
        rw [hrest] at h
        exact absurd h (by simp)
      | ok l' =>
        rcases List.mem_cons.mp hm with rfl | hm'
        · exact ⟨inp, hc⟩
        · exact ih l' hrest iid hm'

theorem collectInputs_error_of (t : Storage) (ids : List Nat) (iid : Nat) (e0 : GetErr)
    (hm : iid ∈ ids) (hbad : construct_input t iid = .error e0) :
    ∃ e, collectInputs t ids = .error e := by
  cases hres : collectInputs t ids with
  | error e => exact ⟨e, rfl⟩
  | ok l =>
    obtain ⟨inp, hok⟩ := collectInputs_mem_ok t ids l hres iid hm
    rw [hok] at hbad
    exact absurd hbad (by simp)

theorem id_inj_of_nodup (L : List Input) (hnd : (L.map Input.id).Nodup)
    {a b : Input} (ha : a ∈ L) (hb : b ∈ L) (hid : a.id = b.id) : a = b :=
  List.inj_on_of_nodup_map hnd ha hb hid

theorem not_mem_of_same_id (L : List Input) (hnd : (L.map Input.id).Nodup)
    (inp : Input) (hmem : inp ∈ L) (j : Input) (hid : j.id = inp.id) (hne : j ≠ inp) :
    j ∉ L :=
  fun hj => hne (id_inj_of_nodup L hnd hj hmem hid)

/-- None of the five variant maps holds the given input ID. -/
def variantFree (s : Storage) (i : Nat) : Prop :=
  s.constant_map.get i = none ∧ s.public_map.get i = none ∧ s.private_map.get i = none ∧
    s.record_map.get i = none ∧ s.external_record_map.get i = none

theorem construct_input_insertPost (tid : Nat) (L : List Input) (s : Storage) (inp : Input)
    (hnd : (L.map Input.id).Nodup) (hmem : inp ∈ L) (hfree : variantFree s inp.id) :
    construct_input (insertPost tid L s) inp.id = .ok inp := by
  obtain ⟨f1, f2, f3, f4, f5⟩ := hfree
  cases inp with
  | constant i v =>
    have hcon : (insertPost tid L s).constant_map.get i = some v :=
      insertPost_const_value tid L s i v hnd hmem
    have hpub : (insertPost tid L s).public_map.get i = none := by
      rw [insertPost_pub_unchanged tid L s i
        (fun w => not_mem_of_same_id L hnd _ hmem _ rfl (by simp))]
      exact f2
    have hpriv : (insertPost tid L s).private_map.get i = none := by
      rw [insertPost_priv_unchanged tid L s i
        (fun w => not_mem_of_same_id L hnd _ hmem _ rfl (by simp))]
      exact f3
    have hrec : (insertPost tid L s).record_map.get i = none := by
      rw [insertPost_rec_unchanged tid L s i
        (fun tg og => not_mem_of_same_id L hnd _ hmem _ rfl (by simp))]
      exact f4
    have hext : (insertPost tid L s).external_record_map.get i = none := by
      rw [insertPost_ext_unchanged tid L s i
        (not_mem_of_same_id L hnd _ hmem _ rfl (by simp))]
      exact f5
    simp [construct_input, hcon, hpub, hpriv, hrec, hext, Input.id]
  | public i v =>
    have hpub : (insertPost tid L s).public_map.get i = some v :=
      insertPost_pub_value tid L s i v hnd hmem
    have hcon : (insertPost tid L s).constant_map.get i = none := by
      rw [insertPost_const_unchanged tid L s i
        (fun w => not_mem_of_same_id L hnd _ hmem _ rfl (by simp))]
      exact f1
    have hpriv : (insertPost tid L s).private_map.get i = none := by
      rw [insertPost_priv_unchanged tid L s i
        (fun w => not_mem_of_same_id L hnd _ hmem _ rfl (by simp))]
      exact f3
    have hrec : (insertPost tid L s).record_map.get i = none := by
      rw [insertPost_rec_unchanged tid L s i
        (fun tg og => not_mem_of_same_id L hnd _ hmem _ rfl (by simp))]
      exact f4
    have hext : (insertPost tid L s).external_record_map.get i = none := by
      rw [insertPost_ext_unchanged tid L s i
        (not_mem_of_same_id L hnd _ hmem _ rfl (by simp))]
      exact f5
    simp [construct_input, hcon, hpub, hpriv, hrec, hext, Input.id]
  | priv i v =>
    have hpriv : (insertPost tid L s).private_map.get i = some v :=
      insertPost_priv_value tid L s i v hnd hmem
    have hcon : (insertPost tid L s).constant_map.get i = none := by
      rw [insertPost_const_unchanged tid L s i
        (fun w => not_mem_of_same_id L hnd _ hmem _ rfl (by simp))]
      exact f1
    have hpub : (insertPost tid L s).public_map.get i = none := by
      rw [insertPost_pub_unchanged tid L s i
        (fun w => not_mem_of_same_id L hnd _ hmem _ rfl (by simp))]
      exact f2
    have hrec : (insertPost tid L s).record_map.get i = none := by
      rw [insertPost_rec_unchanged tid L s i
        (fun tg og => not_mem_of_same_id L hnd _ hmem _ rfl (by simp))]
      exact f4
    have hext : (insertPost tid L s).external_record_map.get i = none := by
      rw [insertPost_ext_unchanged tid L s i
        (not_mem_of_same_id L hnd _ hmem _ rfl (by simp))]
      exact f5
    simp [construct_input, hcon, hpub, hpriv, hrec, hext, Input.id]
  | record sn tg og =>
    have hrec : (insertPost tid L s).record_map.get sn = some (tg, og) :=
      insertPost_rec_value tid L s sn tg og hnd hmem
    have hcon : (insertPost tid L s).constant_map.get sn = none := by
      rw [insertPost_const_unchanged tid L s sn
        (fun w => not_mem_of_same_id L hnd _ hmem _ rfl (by simp))]
      exact f1
    have hpub : (insertPost tid L s).public_map.get sn = none := by
      rw [insertPost_pub_unchanged tid L s sn
        (fun w => not_mem_of_same_id L hnd _ hmem _ rfl (by simp))]
      exact f2
    have hpriv : (insertPost tid L s).private_map.get sn = none := by
      rw [insertPost_priv_unchanged tid L s sn
        (fun w => not_mem_of_same_id L hnd _ hmem _ rfl (by simp))]
      exact f3
    have hext : (insertPost tid L s).external_record_map.get sn = none := by
      rw [insertPost_ext_unchanged tid L s sn
        (not_mem_of_same_id L hnd _ hmem _ rfl (by simp))]
      exact f5
    simp [construct_input, hcon, hpub, hpriv, hrec, hext, Input.id]
  | externalRecord i =>
    have hext : (insertPost tid L s).external_record_map.get i = some () :=
      insertPost_ext_value tid L s i hnd hmem
    have hcon : (insertPost tid L s).constant_map.get i = none := by
      rw [insertPost_const_unchanged tid L s i
        (fun w => not_mem_of_same_id L hnd _ hmem _ rfl (by simp))]
      exact f1
    have hpub : (insertPost tid L s).public_map.get i = none := by
      rw [insertPost_pub_unchanged tid L s i
        (fun w => not_mem_of_same_id L hnd _ hmem _ rfl (by simp))]
      exact f2
    have hpriv : (insertPost tid L s).private_map.get i = none := by
      rw [insertPost_priv_unchanged tid L s i
        (fun w => not_mem_of_same_id L hnd _ hmem _ rfl (by simp))]
      exact f3
    have hrec : (insertPost tid L s).record_map.get i = none := by
      rw [insertPost_rec_unchanged tid L s i
        (fun tg og => not_mem_of_same_id L hnd _ hmem _ rfl (by simp))]
      exact f4
    simp [construct_input, hcon, hpub, hpriv, hrec, hext, Input.id]

/-- The deletion operations `remove` stages on a map keyed by input ID. -/
def delOps {V : Type} (ids : List Nat) : List (BatchOp V) :=
  ids.map BatchOp.del

/-- The record-tag deletions `remove` stages: one per input ID found in the
committed `record_map` of the read state `s`. -/
def rTagOps (s : Storage) (ids : List Nat) : List (BatchOp Nat) :=
  ids.filterMap (fun iid =>
    match s.record_map.get iid with
    | some r => some (.del r.1)
    | none => none)

theorem all_del_delOps {V : Type} (ids : List Nat) :
    ∀ op ∈ (delOps ids : List (BatchOp V)), ∃ x, op = BatchOp.del x := by
  intro op hop
  obtain ⟨iid, _, heq⟩ := List.mem_map.mp hop
  exact ⟨iid, heq.symm⟩

theorem all_del_rTagOps (s : Storage) (ids : List Nat) :
    ∀ op ∈ rTagOps s ids, ∃ x, op = BatchOp.del x := by
  intro op hop
  obtain ⟨iid, _, hfi⟩ := List.mem_filterMap.mp hop
  cases hg : s.record_map.get iid <;> rw [hg] at hfi <;> simp at hfi
  case some r => exact ⟨r.1, hfi.symm⟩

theorem keys_delOps {V : Type} (ids : List Nat) :
    ((delOps ids : List (BatchOp V)).map BatchOp.key) = ids := by
  induction ids with
  | nil => rfl
  | cons iid ids ih =>
    simp only [delOps, List.map_cons] at ih ⊢
    simp [BatchOp.key, ih]

theorem mem_rTagOps (s : Storage) (ids : List Nat) (sn tg og : Nat)
    (hmem : sn ∈ ids) (hget : s.record_map.get sn = some (tg, og)) :
    BatchOp.del tg ∈ rTagOps s ids :=
  List.mem_filterMap.mpr ⟨sn, hmem, by rw [hget]⟩

/-- The staging effect of the whole removal loop, map by map, reading
`record_map` from the base state `s`. -/
def removeAllOps (s : Storage) (ids : List Nat) (t : Storage) : Storage :=
  { id_map := t.id_map
    reverse_id_map := t.reverse_id_map.stageOps (delOps ids)
    constant_map := t.constant_map.stageOps (delOps ids)
    public_map := t.public_map.stageOps (delOps ids)
    private_map := t.private_map.stageOps (delOps ids)
    record_map := t.record_map.stageOps (delOps ids)
    record_tag_map := t.record_tag_map.stageOps (rTagOps s ids)
    external_record_map := t.external_record_map.stageOps (delOps ids) }

theorem removeStep_record (t : Storage) (iid : Nat) :
    (removeStep t iid).record_map = t.record_map.remove iid := by
  cases hg : t.record_map.get iid <;> simp [removeStep, hg]

theorem removeAllOps_cons (s : Storage) (iid : Nat) (ids : List Nat) (t : Storage)
    (hc : t.record_map.committed = s.record_map.committed) :
    removeAllOps s (iid :: ids) t = removeAllOps s ids (removeStep t iid) := by
  have hget : t.record_map.get iid = s.record_map.get iid := by
    simp [AMap.get, hc]
  cases hg : s.record_map.get iid with
  | none =>
    simp [removeAllOps, removeStep, hget, hg, delOps, rTagOps, List.filterMap_cons,
      AMap.remove_eq_stageOps, AMap.stageOps_stageOps]
  | some r =>
    simp [removeAllOps, removeStep, hget, hg, delOps, rTagOps, List.filterMap_cons,
      AMap.remove_eq_stageOps, AMap.stageOps_stageOps]

theorem remove_foldl (s : Storage) (ids : List Nat) :
    ∀ t : Storage, t.record_map.batch.isSome = true →
      t.record_map.committed = s.record_map.committed →
      ids.foldl removeStep t = removeAllOps s ids t := by
  induction ids with
  | nil =>
    intro t _ _
    simp [removeAllOps, delOps, rTagOps, AMap.stageOps_nil]
  | cons iid ids ih =>
    intro t hb hc
    have hrec := removeStep_record t iid
    have hb' : (removeStep t iid).record_map.batch.isSome = true := by
      rw [hrec, AMap.remove_eq_stageOps]
      exact AMap.stageOps_batch_isSome _ _ hb
    have hc' : (removeStep t iid).record_map.committed = s.record_map.committed := by
      rw [hrec, AMap.remove_eq_stageOps, AMap.stageOps_committed_of_batch _ _ hb]
      exact hc
    rw [List.foldl_cons, ih (removeStep t iid) hb' hc', ← removeAllOps_cons s iid ids t hc]

/-- The committed state `remove` produces when the transition holds `ids`. -/
def removePost (tid : Nat) (ids : List Nat) (s : Storage) : Storage :=
  { id_map := ⟨removeA s.id_map.committed tid, none⟩
    reverse_id_map := ⟨applyOps s.reverse_id_map.committed (delOps ids), none⟩
    constant_map := ⟨applyOps s.constant_map.committed (delOps ids), none⟩
    public_map := ⟨applyOps s.public_map.committed (delOps ids), none⟩
    private_map := ⟨applyOps s.private_map.committed (delOps ids), none⟩
    record_map := ⟨applyOps s.record_map.committed (delOps ids), none⟩
    record_tag_map := ⟨applyOps s.record_tag_map.committed (rTagOps s ids), none⟩
    external_record_map := ⟨applyOps s.external_record_map.committed (delOps ids), none⟩ }

theorem remove_eq (tid : Nat) (s : Storage) (ids : List Nat)
    (hidle : Idle s) (hids : s.id_map.get tid = some ids) :
    s.remove tid = (.ok (), removePost tid ids s) := by
  obtain ⟨i1, i2, i3, i4, i5, i6, i7, i8⟩ := hidle
  have hb : (Storage.start_atomic s).record_map.batch.isSome = true := by
    show (s.record_map.start_atomic).batch.isSome = true
    rw [AMap.start_atomic_of_idle s.record_map i6]; rfl
  have hb2 : ({ s.start_atomic with id_map := s.start_atomic.id_map.remove tid }
      : Storage).record_map.batch.isSome = true := hb
  have hc2 : ({ s.start_atomic with id_map := s.start_atomic.id_map.remove tid }
      : Storage).record_map.committed = s.record_map.committed := by
    show (s.record_map.start_atomic).committed = s.record_map.committed
    exact AMap.start_atomic_committed _
  simp only [Storage.remove, hids]
  rw [remove_foldl s ids _ hb2 hc2, finish_atomic_all_true]
  refine Prod.ext rfl ?_
  show commitAll (removeAllOps s ids _) = removePost tid ids s
  simp [commitAll, removeAllOps, removePost, AMap.stageOps, AMap.remove, Storage.start_atomic,
    AMap.start_atomic_of_idle s.id_map i1, AMap.start_atomic_of_idle s.reverse_id_map i2,
    AMap.start_atomic_of_idle s.constant_map i3, AMap.start_atomic_of_idle s.public_map i4,
    AMap.start_atomic_of_idle s.private_map i5, AMap.start_atomic_of_idle s.record_map i6,
    AMap.start_atomic_of_idle s.record_tag_map i7,
    AMap.start_atomic_of_idle s.external_record_map i8,
    applyOps, applyOp]

theorem insertPost_idle (tid : Nat) (L : List Input) (s : Storage) :
    Idle (insertPost tid L s) :=
  ⟨rfl, rfl, rfl, rfl, rfl, rfl, rfl, rfl⟩

theorem fault_none_untriggered (L : List Input) :
    ∀ k, (none : Option Nat) = some k → numWrites L ≤ k := by
  intro k hk
  exact absurd hk (by simp)

theorem removePost_id_get (tid : Nat) (ids : List Nat) (s : Storage) :
    (removePost tid ids s).id_map.get tid = none := by
  show lookupA (removeA s.id_map.committed tid) tid = none
  exact lookupA_removeA_self _ _

theorem removePost_rev_get (tid : Nat) (ids : List Nat) (s : Storage) (x : Nat)
    (hx : x ∈ ids) : (removePost tid ids s).reverse_id_map.get x = none := by
  show lookupA (applyOps s.reverse_id_map.committed (delOps ids)) x = none
  exact lookup_applyOps_all_del (delOps ids) (all_del_delOps ids) _ x
    (Or.inl ⟨BatchOp.del x, List.mem_map_of_mem _ hx, rfl⟩)

theorem removePost_tag_get (tid : Nat) (ids : List Nat) (s : Storage) (tg : Nat)
    (hdel : BatchOp.del tg ∈ rTagOps s ids) :
    (removePost tid ids s).record_tag_map.get tg = none := by
  show lookupA (applyOps s.record_tag_map.committed (rTagOps s ids)) tg = none
  exact lookup_applyOps_all_del (rTagOps s ids) (all_del_rTagOps s ids) _ tg
    (Or.inl ⟨BatchOp.del tg, hdel, rfl⟩)

/-- Visibility of one input in its variant map, including the record-tag link
for record inputs. -/
def VariantVisible (t : Storage) : Input → Prop
  | .constant i _ => (t.constant_map.get i).isSome = true
  | .public i _ => (t.public_map.get i).isSome = true
  | .priv i _ => (t.private_map.get i).isSome = true
  | .record sn tg _ => (t.record_map.get sn).isSome = true ∧ t.contains_tag tg = true
  | .externalRecord i => (t.external_record_map.get i).isSome = true

/-- The transition is fully visible in all indices: the ordered ID list, the
reverse index for every input, and every input's variant entries. -/
def FullyVisible (tid : Nat) (L : List Input) (t : Storage) : Prop :=
  t.get_ids tid = L.map Input.id ∧
    ∀ inp ∈ L, t.find_transition_id inp.id = some tid ∧ VariantVisible t inp

/-- The input's own variant map still holds its key. -/
def VariantKeyHere (t : Storage) : Input → Prop
  | .constant i _ => (t.constant_map.get i).isSome = true
  | .public i _ => (t.public_map.get i).isSome = true
  | .priv i _ => (t.private_map.get i).isSome = true
  | .record sn _ _ => (t.record_map.get sn).isSome = true
  | .externalRecord i => (t.external_record_map.get i).isSome = true

/-- The four variant maps other than the input's own are free of its ID. -/
def otherVariantsFree (s : Storage) : Input → Prop
  | .constant i _ => s.public_map.get i = none ∧ s.private_map.get i = none ∧
      s.record_map.get i = none ∧ s.external_record_map.get i = none
  | .public i _ => s.constant_map.get i = none ∧ s.private_map.get i = none ∧
      s.record_map.get i = none ∧ s.external_record_map.get i = none
  | .priv i _ => s.constant_map.get i = none ∧ s.public_map.get i = none ∧
      s.record_map.get i = none ∧ s.external_record_map.get i = none
  | .record sn _ _ => s.constant_map.get sn = none ∧ s.public_map.get sn = none ∧
      s.private_map.get sn = none ∧ s.external_record_map.get sn = none
  | .externalRecord i => s.constant_map.get i = none ∧ s.public_map.get i = none ∧
      s.private_map.get i = none ∧ s.record_map.get i = none

/-- The input's ID already sits in a variant map different from its own. -/
def conflictsElsewhere (s : Storage) : Input → Prop
  | .constant i _ => (s.public_map.get i).isSome = true ∨ (s.private_map.get i).isSome = true ∨
      (s.record_map.get i).isSome = true ∨ (s.external_record_map.get i).isSome = true
  | .public i _ => (s.constant_map.get i).isSome = true ∨ (s.private_map.get i).isSome = true ∨
      (s.record_map.get i).isSome = true ∨ (s.external_record_map.get i).isSome = true
  | .priv i _ => (s.constant_map.get i).isSome = true ∨ (s.public_map.get i).isSome = true ∨
      (s.record_map.get i).isSome = true ∨ (s.external_record_map.get i).isSome = true
  | .record sn _ _ => (s.constant_map.get sn).isSome = true ∨
      (s.public_map.get sn).isSome = true ∨ (s.private_map.get sn).isSome = true ∨
      (s.external_record_map.get sn).isSome = true
  | .externalRecord i => (s.constant_map.get i).isSome = true ∨
      (s.public_map.get i).isSome = true ∨ (s.private_map.get i).isSome = true ∨
      (s.record_map.get i).isSome = true

/-- The exact-inverse invariant of spec section 3: the reverse index maps `x`
to `t` precisely when `x` occurs in the ID list stored for `t`. -/
def ReverseInv (s : Storage) : Prop :=
  ∀ x t, s.reverse_id_map.get x = some t ↔ ∃ ids, s.id_map.get t = some ids ∧ x ∈ ids

/-- The result of one map's successful commit: staged operations applied,
batch cleared. -/
def commitM {V : Type} (m : AMap V) : AMap V :=
  ⟨applyOps m.committed (m.batch.getD []), none⟩

theorem AMap.finish_atomic_true' {V : Type} (m : AMap V) :
    m.finish_atomic true = .ok (commitM m) := by
  rw [AMap.finish_atomic_true]
  rfl

theorem AMap.finish_atomic_false {V : Type} (m : AMap V) (h : m.batch.isSome = true) :
    m.finish_atomic false = .error () := by
  cases m with
  | mk c b => cases b <;> simp_all [AMap.finish_atomic]

/-- A storage with an atomic batch in progress on all eight maps and one
staged `id_map` write. -/
def exC1 : Storage :=
  { id_map := ⟨[], some [BatchOp.ins 1 [2]]⟩, reverse_id_map := ⟨[], some []⟩,
    constant_map := ⟨[], some []⟩, public_map := ⟨[], some []⟩,
    private_map := ⟨[], some []⟩, record_map := ⟨[], some []⟩,
    record_tag_map := ⟨[], some []⟩, external_record_map := ⟨[], some []⟩ }

/-- A commit oracle under which only the first map (`id_map`) commits and the
second map (`reverse_id_map`) fails. -/
def okC1 : Nat → Bool := fun i => decide (i = 0)

/-- C1, counterexample: with a batch in progress on all eight maps and a
staged `id_map` write, a commit failure of `reverse_id_map` makes
`finish_atomic` fail, yet `id_map` already reads differently from its
pre-batch state — the claimed all-or-nothing guarantee of `finish_atomic`
is false, because the eight per-map commits are chained sequentially with
early return. -/
theorem C1_counterexample :
    AllBatching exC1 ∧
      (exC1.finish_atomic okC1).1 = .error () ∧
      (exC1.finish_atomic okC1).2.id_map.get 1 ≠ exC1.id_map.get 1 := by
  refine ⟨⟨rfl, rfl, rfl, rfl, rfl, rfl, rfl, rfl⟩, rfl, ?_⟩
  intro h
  have h1 : (exC1.finish_atomic okC1).2.id_map.get 1 = some [2] := rfl
  have h2 : exC1.id_map.get 1 = none := rfl
  rw [h1, h2] at h
  exact Option.noConfusion h

/-- C1, amended: when an atomic batch is in progress on all eight maps and
the first failing per-map commit is the `j`-th in the fixed order (id,
reverse_id, constant, public, private, record, record_tag, external_record),
`finish_atomic` fails, every map before position `j` has its staged writes
committed and visible, and the failing map and all later maps are unchanged. -/
theorem C1_finish_atomic_first_failure (s : Storage) (ok : Nat → Bool) (j : Nat)
    (hb : AllBatching s) (hjlt : j < 8) (hj : ok j = false)
    (hfirst : ∀ i, i < j → ok i = true) :
    s.finish_atomic ok =
      (.error (),
        { id_map := if 0 < j then commitM s.id_map else s.id_map
          reverse_id_map := if 1 < j then commitM s.reverse_id_map else s.reverse_id_map
          constant_map := if 2 < j then commitM s.constant_map else s.constant_map
          public_map := if 3 < j then commitM s.public_map else s.public_map
          private_map := if 4 < j then commitM s.private_map else s.private_map
          record_map := if 5 < j then commitM s.record_map else s.record_map
          record_tag_map := if 6 < j then commitM s.record_tag_map else s.record_tag_map
          external_record_map := if 7 < j then commitM s.external_record_map
            else s.external_record_map }) := by
  obtain ⟨b1, b2, b3, b4, b5, b6, b7, b8⟩ := hb
  interval_cases j
  · simp [Storage.finish_atomic, hj, AMap.finish_atomic_false s.id_map b1]
  · simp [Storage.finish_atomic, hfirst 0 (by omega), hj, AMap.finish_atomic_true',
      AMap.finish_atomic_false s.reverse_id_map b2]
  · simp [Storage.finish_atomic, hfirst 0 (by omega), hfirst 1 (by omega), hj,
      AMap.finish_atomic_true', AMap.finish_atomic_false s.constant_map b3]
  · simp [Storage.finish_atomic, hfirst 0 (by omega), hfirst 1 (by omega),
      hfirst 2 (by omega), hj, AMap.finish_atomic_true',
      AMap.finish_atomic_false s.public_map b4]
  · simp [Storage.finish_atomic, hfirst 0 (by omega), hfirst 1 (by omega),
      hfirst 2 (by omega), hfirst 3 (by omega), hj, AMap.finish_atomic_true',
      AMap.finish_atomic_false s.private_map b5]
  · simp [Storage.finish_atomic, hfirst 0 (by omega), hfirst 1 (by omega),
      hfirst 2 (by omega), hfirst 3 (by omega), hfirst 4 (by omega), hj,
      AMap.finish_atomic_true', AMap.finish_atomic_false s.record_map b6]
  · simp [Storage.finish_atomic, hfirst 0 (by omega), hfirst 1 (by omega),
      hfirst 2 (by omega), hfirst 3 (by omega), hfirst 4 (by omega),
      hfirst 5 (by omega), hj, AMap.finish_atomic_true',
      AMap.finish_atomic_false s.record_tag_map b7]
  · simp [Storage.finish_atomic, hfirst 0 (by omega), hfirst 1 (by omega),
      hfirst 2 (by omega), hfirst 3 (by omega), hfirst 4 (by omega),
      hfirst 5 (by omega), hfirst 6 (by omega), hj, AMap.finish_atomic_true',
      AMap.finish_atomic_false s.external_record_map b8]

/-- C1, witness: the amended theorem applied at the concrete counterexample
state with the failure at position 1. -/
theorem C1_finish_atomic_first_failure_witness :
    exC1.finish_atomic okC1 = (.error (), { exC1 with id_map := ⟨[(1, [2])], none⟩ }) := by
  rw [C1_finish_atomic_first_failure exC1 okC1 1 ⟨rfl, rfl, rfl, rfl, rfl, rfl, rfl, rfl⟩
    (by omega) rfl
    (fun i hi => by
      have h0 : i = 0 := by omega
      subst h0
      rfl)]
  rfl

/-- C2: from an idle state, `insert` is all-or-nothing.  If any individual
write fails partway through (the `k`-th of the `numWrites` map writes), the
whole insert returns an error and the post-state of all eight maps equals
the pre-state exactly; if `insert` returns ok, the transition is fully
visible in all indices — `id_map`, `reverse_id_map`, the input's variant
map, and `record_tag_map` for record inputs. -/
theorem C2_insert_all_or_nothing (fault : Option Nat) (tid : Nat) (L : List Input)
    (s : Storage) (hidle : Idle s) :
    (∀ k, fault = some k → k < numWrites L → s.insert fault tid L = (.error (), s)) ∧
      ((s.insert fault tid L).1 = .ok () → FullyVisible tid L (s.insert fault tid L).2) := by
  constructor
  · intro k hk hlt
    exact insert_fail_eq fault tid L s k hidle hk hlt
  · intro hok
    have huntrig : ∀ k, fault = some k → numWrites L ≤ k := by
      intro k hk
      by_contra hcon
      push_neg at hcon
      have hf := insert_fail_eq fault tid L s k hidle hk hcon
      rw [hf] at hok
      exact absurd hok (by simp)
    have heq := insert_ok_eq fault tid L s hidle huntrig
    rw [heq]
    show FullyVisible tid L (insertPost tid L s)
    refine ⟨?_, ?_⟩
    · simp [Storage.get_ids, insertPost_id_self]
    · intro inp hmem
      refine ⟨insertPost_rev_some tid L s inp hmem, ?_⟩
      cases inp with
      | constant i v => exact insertPost_const_present tid L s i v hmem
      | public i v => exact insertPost_pub_present tid L s i v hmem
      | priv i v => exact insertPost_priv_present tid L s i v hmem
      | record sn tg og =>
        refine ⟨insertPost_rec_present tid L s sn tg og hmem, ?_⟩
        show ((insertPost tid L s).record_tag_map.get tg).isSome = true
        exact insertPost_tag_present tid L s sn tg og hmem
      | externalRecord i => exact insertPost_ext_present tid L s i hmem

/-- C2, witness: a concrete induced failure at the fourth write restores the
empty pre-state, and a fault-free insert of the same list is fully visible. -/
theorem C2_insert_all_or_nothing_witness :
    emptyStorage.insert (some 3) 0 [.constant 1 none, .record 2 3 4]
        = (.error (), emptyStorage) ∧
      FullyVisible 0 [.constant 1 none, .record 2 3 4]
        (emptyStorage.insert none 0 [.constant 1 none, .record 2 3 4]).2 := by
  constructor
  · exact (C2_insert_all_or_nothing (some 3) 0 [.constant 1 none, .record 2 3 4]
      emptyStorage ⟨rfl, rfl, rfl, rfl, rfl, rfl, rfl, rfl⟩).1 3 rfl (by decide)
  · exact (C2_insert_all_or_nothing none 0 [.constant 1 none, .record 2 3 4]
      emptyStorage ⟨rfl, rfl, rfl, rfl, rfl, rfl, rfl, rfl⟩).2 rfl

/-- C3, counterexample: the round-trip claim fails for an input list whose
two inputs share one input ID across two variants — `get` then reports the
multiple-inputs consistency error instead of returning the list. -/
theorem C3_counterexample :
    (emptyStorage.insert none 0 [.constant 5 none, .public 5 none]).2.get 0
      ≠ .ok [.constant 5 none, .public 5 none] := by
  intro h
  have h1 : (emptyStorage.insert none 0 [.constant 5 none, .public 5 none]).2.get 0
      = .error (.multiple 5) := rfl
  rw [h1] at h
  exact Except.noConfusion h

/-- C3, amended: for any transition ID and any input list whose input IDs are
pairwise distinct and absent from all five variant maps of the idle
pre-state, `insert` followed by `get` returns the list unchanged and in
order. -/
theorem C3_round_trip (tid : Nat) (L : List Input) (s : Storage) (hidle : Idle s)
    (hnd : (L.map Input.id).Nodup) (hfree : ∀ inp ∈ L, variantFree s inp.id) :
    (s.insert none tid L).2.get tid = .ok L := by
  rw [insert_ok_eq none tid L s hidle (fault_none_untriggered L)]
  show (insertPost tid L s).get tid = .ok L
  simp only [Storage.get, insertPost_id_self]
  exact collectInputs_ok_of _ L
    (fun inp hm => construct_input_insertPost tid L s inp hnd hm (hfree inp hm))

/-- C3, witness: a concrete three-variant round trip through a fresh store. -/
theorem C3_round_trip_witness :
    (emptyStorage.insert none 0 [.constant 1 none, .record 2 3 4, .externalRecord 5]).2.get 0
      = .ok [.constant 1 none, .record 2 3 4, .externalRecord 5] :=
  C3_round_trip 0 [.constant 1 none, .record 2 3 4, .externalRecord 5] emptyStorage
    ⟨rfl, rfl, rfl, rfl, rfl, rfl, rfl, rfl⟩ (by decide)
    (by intro inp hm; fin_cases hm <;> exact ⟨rfl, rfl, rfl, rfl, rfl⟩)

/-- C6: on an idle storage, a transition ID absent from `id_map` and an input
ID absent from `reverse_id_map` are soft absences — `get` returns the empty
list, `get_ids` the empty list, `find_transition_id` none, and `remove`
succeeds while leaving all eight maps exactly unchanged. -/
theorem C6_absence_is_soft (s : Storage) (tid x : Nat)
    (h1 : s.id_map.get tid = none) (h2 : s.reverse_id_map.get x = none) :
    s.get tid = .ok [] ∧ s.get_ids tid = [] ∧ s.find_transition_id x = none ∧
      s.remove tid = (.ok (), s) := by
  refine ⟨?_, ?_, ?_, ?_⟩
  · simp [Storage.get, h1]
  · simp [Storage.get_ids, h1]
  · simp [Storage.find_transition_id, h2]
  · simp [Storage.remove, h1]

/-- C6, witness: all four absence behaviors on the freshly opened store. -/
theorem C6_absence_is_soft_witness :
    emptyStorage.get 0 = .ok [] ∧ emptyStorage.get_ids 0 = [] ∧
      emptyStorage.find_transition_id 0 = none ∧
      emptyStorage.remove 0 = (.ok (), emptyStorage) :=
  C6_absence_is_soft emptyStorage 0 0 rfl rfl

/-- C4: for a transition whose `id_map` entry exists, `get` requires exactly
one variant-map hit per stored input ID — an ID found in zero variant maps
gives the missing-input error, an ID found in two or more gives the
multiple-inputs error, and in both cases `get` itself returns an error to
the caller rather than silently resolving it. -/
theorem C4_get_requires_exactly_one_hit (s : Storage) (tid : Nat) (ids : List Nat)
    (iid : Nat) (hids : s.id_map.get tid = some ids) (hmem : iid ∈ ids) :
    (hitCount s iid = 0 →
        construct_input s iid = .error (.missing iid) ∧ ∃ e, s.get tid = .error e) ∧
      (2 ≤ hitCount s iid →
        construct_input s iid = .error (.multiple iid) ∧ ∃ e, s.get tid = .error e) := by
  constructor
  · intro h0
    have hc := construct_input_missing s iid h0
    refine ⟨hc, ?_⟩
    obtain ⟨e, he⟩ := collectInputs_error_of s ids iid _ hmem hc
    exact ⟨e, by simp [Storage.get, hids, he]⟩
  · intro h2
    have hc := construct_input_multiple s iid h2
    refine ⟨hc, ?_⟩
    obtain ⟨e, he⟩ := collectInputs_error_of s ids iid _ hmem hc
    exact ⟨e, by simp [Storage.get, hids, he]⟩

/-- A corrupted storage: transition 0 lists IDs 1 and 2, ID 1 sits in no
variant map and ID 2 sits in two of them. -/
def exC4 : Storage :=
  { id_map := ⟨[(0, [1, 2])], none⟩, reverse_id_map := ⟨[(1, 0), (2, 0)], none⟩,
    constant_map := ⟨[(2, none)], none⟩, public_map := ⟨[(2, some 9)], none⟩,
    private_map := ⟨[], none⟩, record_map := ⟨[], none⟩,
    record_tag_map := ⟨[], none⟩, external_record_map := ⟨[], none⟩ }

/-- C4, witness: both consistency errors observed on the corrupted storage. -/
theorem C4_get_requires_exactly_one_hit_witness :
    (construct_input exC4 1 = .error (.missing 1) ∧ ∃ e, exC4.get 0 = .error e) ∧
      (construct_input exC4 2 = .error (.multiple 2) ∧ ∃ e, exC4.get 0 = .error e) :=
  ⟨(C4_get_requires_exactly_one_hit exC4 0 [1, 2] 1 rfl (by decide)).1 (by decide),
    (C4_get_requires_exactly_one_hit exC4 0 [1, 2] 2 rfl (by decide)).2 (by decide)⟩

/-- C5, counterexample: when the inserted list repeats a serial number under
two different tags, the overwritten `record_map` entry makes `remove` miss
the first tag — after removal the first tag still satisfies `contains_tag`,
so the tombstone claim fails as stated. -/
theorem C5_counterexample :
    Input.record 5 1 0 ∈ [Input.record 5 1 0, Input.record 5 2 0] ∧
      (((emptyStorage.insert none 0 [.record 5 1 0, .record 5 2 0]).2.remove 0).2).contains_tag 1
        = true := by
  constructor
  · exact List.mem_cons_self _ _
  · rfl

/-- C5, amended: for a transition inserted with an input list whose input IDs
are pairwise distinct, after `remove` succeeds the transition is fully
tombstoned — `get` and `get_ids` are empty, `find_transition_id` is none for
every input ID of the list, and every record input's tag fails
`contains_tag`. -/
theorem C5_tombstone (tid : Nat) (L : List Input) (s : Storage) (hidle : Idle s)
    (hnd : (L.map Input.id).Nodup) :
    ((s.insert none tid L).2.remove tid).1 = .ok () ∧
      (((s.insert none tid L).2.remove tid).2).get tid = .ok [] ∧
      (((s.insert none tid L).2.remove tid).2).get_ids tid = [] ∧
      (∀ inp ∈ L,
        (((s.insert none tid L).2.remove tid).2).find_transition_id inp.id = none) ∧
      (∀ sn tg og, Input.record sn tg og ∈ L →
        (((s.insert none tid L).2.remove tid).2).contains_tag tg = false) := by
  have hins := insert_ok_eq none tid L s hidle (fault_none_untriggered L)
  have hrem := remove_eq tid (insertPost tid L s) (L.map Input.id)
    (insertPost_idle tid L s) (insertPost_id_self tid L s)
  simp only [hins]
  simp only [hrem]
  refine ⟨by trivial, ?_, ?_, ?_, ?_⟩
  · simp [Storage.get, removePost_id_get]
  · simp [Storage.get_ids, removePost_id_get]
  · intro inp hm
    exact removePost_rev_get tid (L.map Input.id) (insertPost tid L s) inp.id
      (List.mem_map_of_mem _ hm)
  · intro sn tg og hm
    have hrecv : (insertPost tid L s).record_map.get sn = some (tg, og) :=
      insertPost_rec_value tid L s sn tg og hnd hm
    have hdel : BatchOp.del tg ∈ rTagOps (insertPost tid L s) (L.map Input.id) :=
      mem_rTagOps _ _ sn tg og (List.mem_map_of_mem _ hm) hrecv
    have hnone := removePost_tag_get tid (L.map Input.id) (insertPost tid L s) tg hdel
    simp [Storage.contains_tag, AMap.contains_key, hnone]

/-- C5, witness: the amended tombstone behavior on a concrete record input. -/
theorem C5_tombstone_witness :
    (((emptyStorage.insert none 0 [.record 2 3 4]).2.remove 0).1 = .ok ()) ∧
      ((((emptyStorage.insert none 0 [.record 2 3 4]).2.remove 0).2).get 0 = .ok []) ∧
      ((((emptyStorage.insert none 0 [.record 2 3 4]).2.remove 0).2).find_transition_id 2
        = none) ∧
      ((((emptyStorage.insert none 0 [.record 2 3 4]).2.remove 0).2).contains_tag 3
        = false) := by
  have h := C5_tombstone 0 [.record 2 3 4] emptyStorage
    ⟨rfl, rfl, rfl, rfl, rfl, rfl, rfl, rfl⟩ (by decide)
  exact ⟨h.1, h.2.1, h.2.2.2.1 (Input.record 2 3 4) (by simp), h.2.2.2.2 2 3 4 (by simp)⟩

/-- C7, counterexample: a successful insert whose input ID already lives in a
different variant map leaves the ID in two variant maps — two of the five
per-variant existence checks are true, refuting the exactly-one claim. -/
theorem C7_counterexample :
    (((emptyStorage.insert none 0 [.constant 5 none]).2.insert none 1
        [.public 5 none]).1 = .ok ()) ∧
      hitCount ((emptyStorage.insert none 0 [.constant 5 none]).2.insert none 1
        [.public 5 none]).2 5 = 2 :=
  ⟨rfl, by decide⟩

/-- C7, amended: after a successful insert from an idle state, every input ID
of the inserted list that was not already a key of a different variant map
(with the list's IDs pairwise distinct) is a key of exactly one of the five
variant maps. -/
theorem C7_exclusive_membership (tid : Nat) (L : List Input) (s : Storage) (hidle : Idle s)
    (hnd : (L.map Input.id).Nodup) (hfree : ∀ inp ∈ L, otherVariantsFree s inp) :
    ∀ inp ∈ L, hitCount (s.insert none tid L).2 inp.id = 1 := by
  intro inp hmem
  rw [insert_ok_eq none tid L s hidle (fault_none_untriggered L)]
  show hitCount (insertPost tid L s) inp.id = 1
  have h4 := hfree inp hmem
  cases inp with
  | constant i v =>
    obtain ⟨g1, g2, g3, g4⟩ := h4
    have hown := insertPost_const_present tid L s i v hmem
    have hp := insertPost_pub_unchanged tid L s i
      (fun w => not_mem_of_same_id L hnd _ hmem _ rfl (by simp))
    have hpr := insertPost_priv_unchanged tid L s i
      (fun w => not_mem_of_same_id L hnd _ hmem _ rfl (by simp))
    have hr := insertPost_rec_unchanged tid L s i
      (fun tg og => not_mem_of_same_id L hnd _ hmem _ rfl (by simp))
    have he := insertPost_ext_unchanged tid L s i
      (not_mem_of_same_id L hnd _ hmem _ rfl (by simp))
    show hitCount (insertPost tid L s) i = 1
    unfold hitCount
    rw [hown, hp, hpr, hr, he, g1, g2, g3, g4]
    simp
  | public i v =>
    obtain ⟨g1, g2, g3, g4⟩ := h4
    have hown := insertPost_pub_present tid L s i v hmem
    have hc := insertPost_const_unchanged tid L s i
      (fun w => not_mem_of_same_id L hnd _ hmem _ rfl (by simp))
    have hpr := insertPost_priv_unchanged tid L s i
      (fun w => not_mem_of_same_id L hnd _ hmem _ rfl (by simp))
    have hr := insertPost_rec_unchanged tid L s i
      (fun tg og => not_mem_of_same_id L hnd _ hmem _ rfl (by simp))
    have he := insertPost_ext_unchanged tid L s i
      (not_mem_of_same_id L hnd _ hmem _ rfl (by simp))
    show hitCount (insertPost tid L s) i = 1
    unfold hitCount
    rw [hown, hc, hpr, hr, he, g1, g2, g3, g4]
    simp
  | priv i v =>
    obtain ⟨g1, g2, g3, g4⟩ := h4
    have hown := insertPost_priv_present tid L s i v hmem
    have hc := insertPost_const_unchanged tid L s i
      (fun w => not_mem_of_same_id L hnd _ hmem _ rfl (by simp))
    have hp := insertPost_pub_unchanged tid L s i
      (fun w => not_mem_of_same_id L hnd _ hmem _ rfl (by simp))
    have hr := insertPost_rec_unchanged tid L s i
      (fun tg og => not_mem_of_same_id L hnd _ hmem _ rfl (by simp))
    have he := insertPost_ext_unchanged tid L s i
      (not_mem_of_same_id L hnd _ hmem _ rfl (by simp))
    show hitCount (insertPost tid L s) i = 1
    unfold hitCount
    rw [hown, hc, hp, hr, he, g1, g2, g3, g4]
    simp
  | record sn tg og =>
    obtain ⟨g1, g2, g3, g4⟩ := h4
    have hown := insertPost_rec_present tid L s sn tg og hmem
    have hc := insertPost_const_unchanged tid L s sn
      (fun w => not_mem_of_same_id L hnd _ hmem _ rfl (by simp))
    have hp := insertPost_pub_unchanged tid L s sn
      (fun w => not_mem_of_same_id L hnd _ hmem _ rfl (by simp))
    have hpr := insertPost_priv_unchanged tid L s sn
      (fun w => not_mem_of_same_id L hnd _ hmem _ rfl (by simp))
    have he := insertPost_ext_unchanged tid L s sn
      (not_mem_of_same_id L hnd _ hmem _ rfl (by simp))
    show hitCount (insertPost tid L s) sn = 1
    unfold hitCount
    rw [hown, hc, hp, hpr, he, g1, g2, g3, g4]
    simp
  | externalRecord i =>
    obtain ⟨g1, g2, g3, g4⟩ := h4
    have hown := insertPost_ext_present tid L s i hmem
    have hc := insertPost_const_unchanged tid L s i
      (fun w => not_mem_of_same_id L hnd _ hmem _ rfl (by simp))
    have hp := insertPost_pub_unchanged tid L s i
      (fun w => not_mem_of_same_id L hnd _ hmem _ rfl (by simp))
    have hpr := insertPost_priv_unchanged tid L s i
      (fun w => not_mem_of_same_id L hnd _ hmem _ rfl (by simp))
    have hr := insertPost_rec_unchanged tid L s i
      (fun tg og => not_mem_of_same_id L hnd _ hmem _ rfl (by simp))
    show hitCount (insertPost tid L s) i = 1
    unfold hitCount
    rw [hown, hc, hp, hpr, hr, g1, g2, g3, g4]
    simp

/-- C7, witness: a fresh constant input ends up in exactly one variant map. -/
theorem C7_exclusive_membership_witness :
    hitCount (emptyStorage.insert none 0 [.constant 1 none]).2 1 = 1 := by
  have h := C7_exclusive_membership 0 [.constant 1 none] emptyStorage
    ⟨rfl, rfl, rfl, rfl, rfl, rfl, rfl, rfl⟩ (by decide)
    (by intro inp hm; fin_cases hm; exact ⟨rfl, rfl, rfl, rfl⟩)
  exact h (Input.constant 1 none) (by simp)

/-- C8, counterexample: re-inserting under the same transition ID leaves a
stale reverse entry — the reverse index still maps the first input ID to the
transition although the flattened `id_map` no longer contains it, so
`reverse_id_map` is not the exact inverse of the flattening of `id_map` in
every committed state. -/
theorem C8_counterexample :
    (((emptyStorage.insert none 0 [.constant 1 none]).2.insert none 0
        [.constant 2 none]).2.find_transition_id 1 = some 0) ∧
      ¬ ReverseInv ((emptyStorage.insert none 0 [.constant 1 none]).2.insert none 0
        [.constant 2 none]).2 := by
  constructor
  · rfl
  · intro h
    obtain ⟨ids, hids, hmem⟩ := (h 1 0).mp rfl
    have h2 : ((emptyStorage.insert none 0 [.constant 1 none]).2.insert none 0
        [.constant 2 none]).2.id_map.get 0 = some [2] := rfl
    rw [h2] at hids
    have : ids = [2] := (Option.some.inj hids).symm
    subst this
    simp at hmem

/-- C8, amended: immediately after `insert(t, L)` from an idle state,
`find_transition_id` returns `some t` for every input of `L`; and the
exact-inverse invariant between `reverse_id_map` and the flattening of
`id_map` is preserved by an insert whose transition ID is new to `id_map`
and whose input IDs are new to `reverse_id_map` (re-insertion under a live
transition ID can break it). -/
theorem C8_reverse_consistency (tid : Nat) (L : List Input) (s : Storage) (hidle : Idle s)
    (hinv : ReverseInv s) (hfresh : ∀ inp ∈ L, s.reverse_id_map.get inp.id = none)
    (htid : s.id_map.get tid = none) :
    (∀ inp ∈ L, (s.insert none tid L).2.find_transition_id inp.id = some tid) ∧
      ReverseInv (s.insert none tid L).2 := by
  rw [insert_ok_eq none tid L s hidle (fault_none_untriggered L)]
  constructor
  · intro inp hmem
    exact insertPost_rev_some tid L s inp hmem
  · intro x t
    constructor
    · intro hrev
      by_cases hx : x ∈ L.map Input.id
      · have hsome : (insertPost tid L s).reverse_id_map.get x = some tid := by
          obtain ⟨inp, hinp, hid⟩ := List.mem_map.mp hx
          rw [insertPost_rev_get]
          exact lookup_applyOps_same_value (revOps tid L) tid (all_ins_revOps tid L) _ _
            (Or.inl ⟨BatchOp.ins inp.id tid, mem_revOps tid L inp hinp, hid⟩)
        rw [hsome] at hrev
        have : t = tid := (Option.some.inj hrev).symm
        subst this
        exact ⟨L.map Input.id, insertPost_id_self t L s, hx⟩
      · rw [insertPost_rev_not_mem tid L s x hx] at hrev
        obtain ⟨ids, hids, hmem⟩ := (hinv x t).mp hrev
        have htne : tid ≠ t := by
          intro hteq
          rw [← hteq, htid] at hids
          exact Option.noConfusion hids
        refine ⟨ids, ?_, hmem⟩
        rw [insertPost_id_get, lookupA_insertA_ne _ _ _ _ htne]
        exact hids
    · rintro ⟨ids, hids, hmem⟩
      by_cases ht : t = tid
      · subst ht
        rw [insertPost_id_self] at hids
        have : ids = L.map Input.id := (Option.some.inj hids).symm
        subst this
        obtain ⟨inp, hinp, hid⟩ := List.mem_map.mp hmem
        rw [insertPost_rev_get]
        exact lookup_applyOps_same_value (revOps t L) t (all_ins_revOps t L) _ _
          (Or.inl ⟨BatchOp.ins inp.id t, mem_revOps t L inp hinp, hid⟩)
      · have hids' : s.id_map.get t = some ids := by
          rw [insertPost_id_get, lookupA_insertA_ne _ _ _ _ (fun h => ht h.symm)] at hids
          exact hids
        have hrev : s.reverse_id_map.get x = some t := (hinv x t).mpr ⟨ids, hids', hmem⟩
        have hx : x ∉ L.map Input.id := by
          intro hx
          obtain ⟨inp, hinp, hid⟩ := List.mem_map.mp hx
          rw [← hid, hfresh inp hinp] at hrev
          exact Option.noConfusion hrev
        rw [insertPost_rev_not_mem tid L s x hx]
        exact hrev

/-- C8, witness: the amended reverse-consistency theorem at a concrete fresh
insert. -/
theorem C8_reverse_consistency_witness :
    ((emptyStorage.insert none 0 [.constant 1 none]).2.find_transition_id 1 = some 0) ∧
      ReverseInv (emptyStorage.insert none 0 [.constant 1 none]).2 := by
  have hinv : ReverseInv emptyStorage := by
    intro x t
    constructor
    · intro h
      exact absurd h (by simp [emptyStorage, AMap.get, lookupA])
    · rintro ⟨ids, hids, _⟩
      exact absurd hids (by simp [emptyStorage, AMap.get, lookupA])
  have h := C8_reverse_consistency 0 [.constant 1 none] emptyStorage
    ⟨rfl, rfl, rfl, rfl, rfl, rfl, rfl, rfl⟩ hinv
    (by intro inp hm; fin_cases hm; rfl) rfl
  exact ⟨h.1 (Input.constant 1 none) (by simp), h.2⟩

/-- C9: `insert` performs no write-time existence guard — from an idle state
it succeeds for every input list regardless of existing variant-map entries,
and when an input's ID already sits in a different variant map the resulting
cross-variant conflict is only detected afterwards by `get`, as the
multiple-inputs consistency error. -/
theorem C9_no_write_time_guard (s : Storage) (tid : Nat) (inp : Input) (hidle : Idle s)
    (hconf : conflictsElsewhere s inp) :
    (∀ L, (s.insert none tid L).1 = .ok ()) ∧
      (s.insert none tid [inp]).2.get tid = .error (.multiple inp.id) := by
  constructor
  · intro L
    rw [insert_ok_eq none tid L s hidle (fault_none_untriggered L)]
  · rw [insert_ok_eq none tid [inp] s hidle (fault_none_untriggered [inp])]
    show (insertPost tid [inp] s).get tid = .error (.multiple inp.id)
    have hcount : 2 ≤ hitCount (insertPost tid [inp] s) inp.id := by
      cases inp with
      | constant i v =>
        have hown := insertPost_const_present tid [Input.constant i v] s i v (by simp)
        have hp := insertPost_pub_unchanged tid [Input.constant i v] s i (by simp)
        have hpr := insertPost_priv_unchanged tid [Input.constant i v] s i (by simp)
        have hr := insertPost_rec_unchanged tid [Input.constant i v] s i (by simp)
        have he := insertPost_ext_unchanged tid [Input.constant i v] s i (by simp)
        show 2 ≤ hitCount (insertPost tid [Input.constant i v] s) i
        unfold hitCount
        rw [hown, hp, hpr, hr, he]
        rcases hconf with h | h | h | h <;> rw [h] <;> simp <;> omega
      | public i v =>
        have hown := insertPost_pub_present tid [Input.public i v] s i v (by simp)
        have hc := insertPost_const_unchanged tid [Input.public i v] s i (by simp)
        have hpr := insertPost_priv_unchanged tid [Input.public i v] s i (by simp)
        have hr := insertPost_rec_unchanged tid [Input.public i v] s i (by simp)
        have he := insertPost_ext_unchanged tid [Input.public i v] s i (by simp)
        show 2 ≤ hitCount (insertPost tid [Input.public i v] s) i
        unfold hitCount
        rw [hown, hc, hpr, hr, he]
        rcases hconf with h | h | h | h <;> rw [h] <;> simp <;> omega
      | priv i v =>
        have hown := insertPost_priv_present tid [Input.priv i v] s i v (by simp)
        have hc := insertPost_const_unchanged tid [Input.priv i v] s i (by simp)
        have hp := insertPost_pub_unchanged tid [Input.priv i v] s i (by simp)
        have hr := insertPost_rec_unchanged tid [Input.priv i v] s i (by simp)
        have he := insertPost_ext_unchanged tid [Input.priv i v] s i (by simp)
        show 2 ≤ hitCount (insertPost tid [Input.priv i v] s) i
        unfold hitCount
        rw [hown, hc, hp, hr, he]
        rcases hconf with h | h | h | h <;> rw [h] <;> simp <;> omega
      | record sn tg og =>
        have hown := insertPost_rec_present tid [Input.record sn tg og] s sn tg og (by simp)
        have hc := insertPost_const_unchanged tid [Input.record sn tg og] s sn (by simp)
        have hp := insertPost_pub_unchanged tid [Input.record sn tg og] s sn (by simp)
        have hpr := insertPost_priv_unchanged tid [Input.record sn tg og] s sn (by simp)
        have he := insertPost_ext_unchanged tid [Input.record sn tg og] s sn (by simp)
        show 2 ≤ hitCount (insertPost tid [Input.record sn tg og] s) sn
        unfold hitCount
        rw [hown, hc, hp, hpr, he]
        rcases hconf with h | h | h | h <;> rw [h] <;> simp <;> omega
      | externalRecord i =>
        have hown := insertPost_ext_present tid [Input.externalRecord i] s i (by simp)
        have hc := insertPost_const_unchanged tid [Input.externalRecord i] s i (by simp)
        have hp := insertPost_pub_unchanged tid [Input.externalRecord i] s i (by simp)
        have hpr := insertPost_priv_unchanged tid [Input.externalRecord i] s i (by simp)
        have hr := insertPost_rec_unchanged tid [Input.externalRecord i] s i (by simp)
        show 2 ≤ hitCount (insertPost tid [Input.externalRecord i] s) i
        unfold hitCount
        rw [hown, hc, hp, hpr, hr]
        rcases hconf with h | h | h | h <;> rw [h] <;> simp <;> omega
    have herr := construct_input_multiple _ _ hcount
    have hids : (insertPost tid [inp] s).id_map.get tid = some [inp.id] := by
      simpa using insertPost_id_self tid [inp] s
    simp [Storage.get, hids, collectInputs, herr]

/-- A storage whose `public_map` already holds input ID 5. -/
def exC9 : Storage :=
  { id_map := ⟨[], none⟩, reverse_id_map := ⟨[], none⟩, constant_map := ⟨[], none⟩,
    public_map := ⟨[(5, none)], none⟩, private_map := ⟨[], none⟩,
    record_map := ⟨[], none⟩, record_tag_map := ⟨[], none⟩,
    external_record_map := ⟨[], none⟩ }

/-- C9, witness: inserting a constant whose ID already sits in the public map
succeeds, and `get` then reports the multiple-inputs error. -/
theorem C9_no_write_time_guard_witness :
    ((exC9.insert none 0 [.constant 5 none]).1 = .ok ()) ∧
      (exC9.insert none 0 [.constant 5 none]).2.get 0 = .error (.multiple 5) := by
  have h := C9_no_write_time_guard exC9 0 (Input.constant 5 none)
    ⟨rfl, rfl, rfl, rfl, rfl, rfl, rfl, rfl⟩ (Or.inl rfl)
  exact ⟨h.1 [.constant 5 none], h.2⟩

/-- C10: re-inserting under the same transition ID from an idle state
overwrites only the forward index — `get_ids` afterwards lists exactly the
second list's input IDs, while every input of the first list whose ID does
not occur in the second list leaves stale entries: `find_transition_id`
still answers the transition ID and its variant-map entry is still
present. -/
theorem C10_reinsert_overwrites_only_forward (tid : Nat) (L1 L2 : List Input) (s : Storage)
    (hidle : Idle s) :
    (((s.insert none tid L1).2.insert none tid L2).2.get_ids tid = L2.map Input.id) ∧
      ∀ inp ∈ L1, inp.id ∉ L2.map Input.id →
        ((s.insert none tid L1).2.insert none tid L2).2.find_transition_id inp.id
            = some tid ∧
          VariantKeyHere ((s.insert none tid L1).2.insert none tid L2).2 inp := by
  have h1 := insert_ok_eq none tid L1 s hidle (fault_none_untriggered L1)
  have h2 := insert_ok_eq none tid L2 (insertPost tid L1 s) (insertPost_idle tid L1 s)
    (fault_none_untriggered L2)
  simp only [h1]
  simp only [h2]
  constructor
  · simp [Storage.get_ids, insertPost_id_self]
  · intro inp hmem hnot
    constructor
    · show (insertPost tid L2 (insertPost tid L1 s)).reverse_id_map.get inp.id = some tid
      rw [insertPost_rev_not_mem tid L2 _ inp.id hnot]
      exact insertPost_rev_some tid L1 s inp hmem
    · cases inp with
      | constant i v =>
        show ((insertPost tid L2 (insertPost tid L1 s)).constant_map.get i).isSome = true
        rw [insertPost_const_unchanged tid L2 _ i
          (fun w hw => hnot (by simpa using List.mem_map_of_mem Input.id hw))]
        exact insertPost_const_present tid L1 s i v hmem
      | public i v =>
        show ((insertPost tid L2 (insertPost tid L1 s)).public_map.get i).isSome = true
        rw [insertPost_pub_unchanged tid L2 _ i
          (fun w hw => hnot (by simpa using List.mem_map_of_mem Input.id hw))]
        exact insertPost_pub_present tid L1 s i v hmem
      | priv i v =>
        show ((insertPost tid L2 (insertPost tid L1 s)).private_map.get i).isSome = true
        rw [insertPost_priv_unchanged tid L2 _ i
          (fun w hw => hnot (by simpa using List.mem_map_of_mem Input.id hw))]
        exact insertPost_priv_present tid L1 s i v hmem
      | record sn tg og =>
        show ((insertPost tid L2 (insertPost tid L1 s)).record_map.get sn).isSome = true
        rw [insertPost_rec_unchanged tid L2 _ sn
          (fun tg' og' hw => hnot (by simpa using List.mem_map_of_mem Input.id hw))]
        exact insertPost_rec_present tid L1 s sn tg og hmem
      | externalRecord i =>
        show ((insertPost tid L2 (insertPost tid L1 s)).external_record_map.get i).isSome
            = true
        rw [insertPost_ext_unchanged tid L2 _ i
          (fun hw => hnot (by simpa using List.mem_map_of_mem Input.id hw))]
        exact insertPost_ext_present tid L1 s i hmem

/-- C10, witness: a concrete re-insert leaving the first input's stale
reverse and variant entries in place. -/
theorem C10_reinsert_overwrites_only_forward_witness :
    (((emptyStorage.insert none 0 [.constant 1 none]).2.insert none 0
        [.public 2 none]).2.get_ids 0 = [2]) ∧
      (((emptyStorage.insert none 0 [.constant 1 none]).2.insert none 0
        [.public 2 none]).2.find_transition_id 1 = some 0) ∧
      VariantKeyHere ((emptyStorage.insert none 0 [.constant 1 none]).2.insert none 0
        [.public 2 none]).2 (Input.constant 1 none) := by
  have h := C10_reinsert_overwrites_only_forward 0 [.constant 1 none] [.public 2 none]
    emptyStorage ⟨rfl, rfl, rfl, rfl, rfl, rfl, rfl, rfl⟩
  have h2 := h.2 (Input.constant 1 none) (by simp) (by decide)
  exact ⟨by simpa using h.1, h2.1, h2.2⟩
